import Mathlib

/-!
Shallow embedding of the SCOAP testability analysis (src/SCOAP.py) and
verification of its specification.

Modelling decisions:
* Python dicts become association lists (`Dict α`) with Python's
  update-or-append insertion semantics; `dlookup` is `d[k]` as a total
  `Option`-valued read.
* Python floats become integers (ℤ): every value the algorithm
  manipulates is produced from the literals 0.0 and 1.0 by `+`, `min`,
  `max` and `sum`, so it is integer-valued, and float arithmetic is exact
  on integers at these magnitudes.
* `math.inf` (used only when deriving SC0/SC1/SO) becomes `XReal.inf`.
* A Python run that raises an uncaught exception (KeyError on a dict read,
  ValueError of `min`/`max` on an empty sequence, IndexError on `ins[0]`)
  is modelled as the value `none`: every fallible operation is sequenced
  explicitly and aborts the run with `none`.  `scoap` returns `some` of
  the metrics bundle exactly when the Python function returns normally.
* The report-formatting / printing / file-writing tail of the Python
  function is I/O outside the algorithmic core and is not modelled; the
  embedded `scoap` returns the same eight maps the Python function returns.
-/

/-- Net names are strings. -/
abbrev Net := String

/-- A gate, mirroring the Python 4-tuple `(gate_type, out, ins, name)`. -/
structure Gate where
  gtype : String
  out : Net
  ins : List Net
  name : String
deriving DecidableEq, Repr

/-- A sequential cell, mirroring the Python dict with keys output/input. -/
structure SeqCell where
  output : Net
  input : Net
deriving DecidableEq, Repr

/-- A Python dict keyed by net name, as an association list without
duplicate keys (insertion updates in place, as in Python). -/
abbrev Dict (α : Type) := List (Net × α)

/-- Dict read `m[k]`, returning `none` where Python raises KeyError. -/
def dlookup {α : Type} : Dict α → Net → Option α
  | [], _ => none
  | (k, v) :: t, n => if k = n then some v else dlookup t n

/-- Dict write `m[k] = v`: update the existing entry in place, else append
(Python dicts preserve first-insertion order). -/
def dinsert {α : Type} : Dict α → Net → α → Dict α
  | [], n, v => [(n, v)]
  | (k, w) :: t, n, v => if k = n then (k, v) :: t else (k, w) :: dinsert t n v

/-- Membership test `k in m`. -/
def dmem {α : Type} (m : Dict α) (n : Net) : Bool :=
  (dlookup m n).isSome

/-- Dict read with default, `m.get(k, d)`. -/
def dgetD {α : Type} (m : Dict α) (n : Net) (d : α) : α :=
  (dlookup m n).getD d

/-- The keys of a dict. -/
def dkeys {α : Type} (m : Dict α) : List Net :=
  m.map Prod.fst

/-- Read every key of `l` from `m` in order; `none` as soon as one read
raises (KeyError), as a Python generator consumed by `sum`/`min` would. -/
def getAll (m : Dict ℤ) : List Net → Option (List ℤ)
  | [] => some []
  | i :: t =>
    match dlookup m i with
    | none => none
    | some q =>
      match getAll m t with
      | none => none
      | some qs => some (q :: qs)

/-- Same as `getAll` for the integer-valued level dicts. -/
def getAllN (m : Dict ℕ) : List Net → Option (List ℕ)
  | [] => some []
  | i :: t =>
    match dlookup m i with
    | none => none
    | some q =>
      match getAllN m t with
      | none => none
      | some qs => some (q :: qs)

/-- Python `min` over a sequence of floats: ValueError (`none`) on empty. -/
def minList : List ℤ → Option ℤ
  | [] => none
  | x :: t => some (t.foldl min x)

/-- Python `max` over a sequence of ints: ValueError (`none`) on empty. -/
def maxListN : List ℕ → Option ℕ
  | [] => none
  | x :: t => some (t.foldl max x)

/-- Python `sum` over a sequence of floats (0 on empty). -/
def sumList (l : List ℤ) : ℤ :=
  l.foldl (· + ·) 0

/-- Fold a fallible step function over a list, aborting on the first
failure: the control flow of a Python `for` loop whose body may raise. -/
def optFold {σ α : Type} (f : σ → α → Option σ) : σ → List α → Option σ
  | s, [] => some s
  | s, a :: t =>
    match f s a with
    | none => none
    | some s' => optFold f s' t

/-- An extended rational: a float that may be `math.inf`. -/
inductive XReal where
  | fin : ℤ → XReal
  | inf : XReal
deriving DecidableEq, Repr

/-- Addition on extended rationals: anything plus infinity is infinity. -/
def xadd : XReal → XReal → XReal
  | XReal.fin a, XReal.fin b => XReal.fin (a + b)
  | _, _ => XReal.inf

/-- `m.get(n, math.inf)` as an extended rational. -/
def toX : Option ℤ → XReal
  | some q => XReal.fin q
  | none => XReal.inf

/-- The mutable state of one analysis run: the five dicts the two sweeps
write (SC0/SC1/SO are derived afterwards). -/
structure St where
  CC0 : Dict ℤ
  CC1 : Dict ℤ
  CO : Dict ℤ
  fwd_level : Dict ℕ
  bkwd_level : Dict ℕ
deriving DecidableEq, Repr

/-- The metrics bundle the Python function returns. -/
structure Result where
  CC0 : Dict ℤ
  CC1 : Dict ℤ
  CO : Dict ℤ
  SC0 : Dict XReal
  SC1 : Dict XReal
  SO : Dict XReal
  fwd_level : Dict ℕ
  bkwd_level : Dict ℕ
deriving DecidableEq, Repr

/-- The empty initial state (Step 0 of the Python code). -/
def initSt : St :=
  { CC0 := [], CC1 := [], CO := [], fwd_level := [], bkwd_level := [] }

/-- Seed the primary inputs: CC0 = CC1 = 1.0, FwdLev = 0. -/
def seedInputs (st : St) (inputs : List Net) : St :=
  inputs.foldl
    (fun s i =>
      { s with
        CC0 := dinsert s.CC0 i 1
        CC1 := dinsert s.CC1 i 1
        fwd_level := dinsert s.fwd_level i 0 })
    st

/-- Seed the sequential-cell outputs: CC0 = CC1 = 1.0, FwdLev = 0. -/
def seedSeq (st : St) (cells : List SeqCell) : St :=
  cells.foldl
    (fun s c =>
      { s with
        CC0 := dinsert s.CC0 c.output 1
        CC1 := dinsert s.CC1 c.output 1
        fwd_level := dinsert s.fwd_level c.output 0 })
    st

/-- Seed the primary outputs: CO = 0.0, BkwdLev = 0. -/
def seedOutputs (st : St) (outputs : List Net) : St :=
  outputs.foldl
    (fun s i =>
      { s with
        CO := dinsert s.CO i 0
        bkwd_level := dinsert s.bkwd_level i 0 })
    st

/-- The controllability writes of one evaluated gate (the dispatch on
`gate_type` in the forward sweep, lines 37-67 of SCOAP.py).  The two dict
writes of each branch are sequenced exactly as in the source, so a read
occurring textually after the first write sees the updated dict. -/
def fwdCC (st : St) (g : Gate) : Option St :=
  if g.gtype = "AND" then
    match getAll st.CC0 g.ins with
    | none => none
    | some c0s =>
      match minList c0s with
      | none => none
      | some m =>
        let stA := { st with CC0 := dinsert st.CC0 g.out (m + 1) }
        match getAll stA.CC1 g.ins with
        | none => none
        | some c1s => some { stA with CC1 := dinsert stA.CC1 g.out (sumList c1s + 1) }
  else if g.gtype = "NAND" then
    match getAll st.CC1 g.ins with
    | none => none
    | some c1s =>
      let stA := { st with CC0 := dinsert st.CC0 g.out (sumList c1s + 1) }
      match getAll stA.CC0 g.ins with
      | none => none
      | some c0s =>
        match minList c0s with
        | none => none
        | some m => some { stA with CC1 := dinsert stA.CC1 g.out (m + 1) }
  else if g.gtype = "OR" then
    match getAll st.CC0 g.ins with
    | none => none
    | some c0s =>
      let stA := { st with CC0 := dinsert st.CC0 g.out (sumList c0s + 1) }
      match getAll stA.CC1 g.ins with
      | none => none
      | some c1s =>
        match minList c1s with
        | none => none
        | some m => some { stA with CC1 := dinsert stA.CC1 g.out (m + 1) }
  else if g.gtype = "NOR" then
    match getAll st.CC1 g.ins with
    | none => none
    | some c1s =>
      match minList c1s with
      | none => none
      | some m =>
        let stA := { st with CC0 := dinsert st.CC0 g.out (m + 1) }
        match getAll stA.CC0 g.ins with
        | none => none
        | some c0s => some { stA with CC1 := dinsert stA.CC1 g.out (sumList c0s + 1) }
  else if g.gtype = "NOT" then
    match g.ins with
    | [] => none
    | i0 :: _ =>
      match dlookup st.CC1 i0 with
      | none => none
      | some v1 =>
        let stA := { st with CC0 := dinsert st.CC0 g.out (v1 + 1) }
        match dlookup stA.CC0 i0 with
        | none => none
        | some v0 => some { stA with CC1 := dinsert stA.CC1 g.out (v0 + 1) }
  else if g.gtype = "BUF" then
    match g.ins with
    | [] => none
    | i0 :: _ =>
      match dlookup st.CC0 i0 with
      | none => none
      | some v0 =>
        let stA := { st with CC0 := dinsert st.CC0 g.out (v0 + 1) }
        match dlookup stA.CC1 i0 with
        | none => none
        | some v1 => some { stA with CC1 := dinsert stA.CC1 g.out (v1 + 1) }
  else if g.gtype = "XOR" then
    match g.ins with
    | [a, b] =>
      match dlookup st.CC0 a, dlookup st.CC0 b, dlookup st.CC1 a, dlookup st.CC1 b with
      | some a0, some b0, some a1, some b1 =>
        let stA := { st with CC0 := dinsert st.CC0 g.out (min (a0 + b0) (a1 + b1) + 1) }
        match dlookup stA.CC0 a, dlookup stA.CC0 b, dlookup stA.CC1 a, dlookup stA.CC1 b with
        | some a0', some b0', some a1', some b1' =>
          some { stA with CC1 := dinsert stA.CC1 g.out (min (a0' + b1') (a1' + b0') + 1) }
        | _, _, _, _ => none
      | _, _, _, _ => none
    | _ => some st
  else if g.gtype = "XNOR" then
    match g.ins with
    | [a, b] =>
      match dlookup st.CC0 a, dlookup st.CC0 b, dlookup st.CC1 a, dlookup st.CC1 b with
      | some a0, some b0, some a1, some b1 =>
        let stA := { st with CC1 := dinsert st.CC1 g.out (min (a0 + b0) (a1 + b1) + 1) }
        match dlookup stA.CC0 a, dlookup stA.CC0 b, dlookup stA.CC1 a, dlookup stA.CC1 b with
        | some a0', some b0', some a1', some b1' =>
          some { stA with CC0 := dinsert stA.CC0 g.out (min (a0' + b1') (a1' + b0') + 1) }
        | _, _, _, _ => none
      | _, _, _, _ => none
    | _ => some st
  else
    let stA := { st with CC0 := dinsert st.CC0 g.out 1 }
    some { stA with CC1 := dinsert stA.CC1 g.out 1 }

/-- One step of the forward sweep (lines 34-69 of SCOAP.py): if every
input already has a CC0 entry, apply the controllability transfer and
record the forward level; otherwise leave the state untouched. -/
def forwardStep (st : St) (g : Gate) : Option St :=
  if g.ins.all (fun i => dmem st.CC0 i) then
    match fwdCC st g with
    | none => none
    | some st1 =>
      match getAllN st1.fwd_level g.ins with
      | none => none
      | some lvls =>
        match maxListN lvls with
        | none => none
        | some mx => some { st1 with fwd_level := dinsert st1.fwd_level g.out (mx + 1) }
  else
    some st

/-- The body of the backward sweep's inner loop over the inputs `j` of a
gate whose output has a CO entry (lines 78-93 of SCOAP.py). -/
def backObsIn (g : Gate) (s : St) (j : Net) : Option St :=
  let s1opt : Option St :=
    if g.gtype = "AND" ∨ g.gtype = "NAND" then
      match dlookup s.CO g.out with
      | none => none
      | some co =>
        match getAll s.CC1 (g.ins.filter (fun i => i != j)) with
        | none => none
        | some c1s => some { s with CO := dinsert s.CO j (co + sumList c1s + 1) }
    else if g.gtype = "OR" ∨ g.gtype = "NOR" then
      match dlookup s.CO g.out with
      | none => none
      | some co =>
        match getAll s.CC0 (g.ins.filter (fun i => i != j)) with
        | none => none
        | some c0s => some { s with CO := dinsert s.CO j (co + sumList c0s + 1) }
    else if g.gtype = "XOR" ∨ g.gtype = "XNOR" then
      match g.ins.filter (fun i => i != j) with
      | [k] =>
        match dlookup s.CO g.out with
        | none => none
        | some co =>
          match dlookup s.CC0 k, dlookup s.CC1 k with
          | some k0, some k1 => some { s with CO := dinsert s.CO j (co + min k0 k1 + 1) }
          | _, _ => none
      | _ => some s
    else
      match dlookup s.CO g.out with
      | none => none
      | some co => some { s with CO := dinsert s.CO j (co + 1) }
  match s1opt with
  | none => none
  | some s1 =>
    some { s1 with bkwd_level := dinsert s1.bkwd_level j (dgetD s1.bkwd_level g.out 0 + 1) }

/-- One step of the backward sweep (lines 76-93 of SCOAP.py): a gate
contributes only if its output net already has a CO entry. -/
def backwardStep (st : St) (g : Gate) : Option St :=
  if dmem st.CO g.out then
    optFold (backObsIn g) st g.ins
  else
    some st

/-- Step 3 of SCOAP.py: derive SC0/SC1/SO over the union of the key sets
of CC0 and CO, reading absent operands as `math.inf`. -/
def step3 (st : St) : Result :=
  let keys := dkeys st.CC0 ++ dkeys st.CO
  let maps :=
    keys.foldl
      (fun (acc : Dict XReal × Dict XReal × Dict XReal) n =>
        (dinsert acc.1 n (xadd (toX (dlookup st.CC0 n)) (toX (dlookup st.CO n))),
         dinsert acc.2.1 n (xadd (toX (dlookup st.CC1 n)) (toX (dlookup st.CO n))),
         dinsert acc.2.2 n (toX (dlookup st.CO n))))
      ([], [], [])
  { CC0 := st.CC0, CC1 := st.CC1, CO := st.CO,
    SC0 := maps.1, SC1 := maps.2.1, SO := maps.2.2,
    fwd_level := st.fwd_level, bkwd_level := st.bkwd_level }

/-- Seeding plus the forward sweep (Step 0 and Step 1 of SCOAP.py). -/
def forwardPhase (inputs : List Net) (seq_cells : List SeqCell)
    (gates : List Gate) : Option St :=
  optFold forwardStep (seedSeq (seedInputs initSt inputs) seq_cells) gates

/-- The whole SCOAP analysis (the Python `scoap` function, minus the
report-formatting I/O tail).  Returns `none` exactly when the Python
function raises an uncaught exception. -/
def scoap (inputs outputs : List Net) (gates : List Gate)
    (seq_cells : List SeqCell) : Option Result :=
  match forwardPhase inputs seq_cells gates with
  | none => none
  | some st3 =>
    match optFold backwardStep (seedOutputs st3 outputs) gates.reverse with
    | none => none
    | some st5 => some (step3 st5)

/-- Domain invariant of the forward sweep: every net with a CC0 entry also
has a CC1 entry and a forward level (seeding and every writing branch of
the forward sweep write these dicts together). -/
def DomInv (st : St) : Prop :=
  ∀ n, dmem st.CC0 n = true → dmem st.CC1 n = true ∧ dmem st.fwd_level n = true

/-- Every value stored in the dict is at least 1. -/
def DGe1 (m : Dict ℤ) : Prop :=
  ∀ n q, dlookup m n = some q → 1 ≤ q

/-! ### Basic lemmas about the dict operations -/

theorem dlookup_dinsert {α : Type} (m : Dict α) (k : Net) (v : α) (n : Net) :
    dlookup (dinsert m k v) n = if k = n then some v else dlookup m n := by
  induction m with
  | nil => simp [dinsert, dlookup]
  | cons p t ih =>
    obtain ⟨k', w⟩ := p
    by_cases hk : k' = k
    · subst hk
      by_cases hn : k' = n <;> simp [dinsert, dlookup, hn]
    · by_cases hn : k' = n
      · subst hn
        have hkn : k ≠ k' := fun h => hk h.symm
        simp [dinsert, dlookup, hk, hkn]
      · simp [dinsert, dlookup, hk, hn, ih]

theorem dmem_dinsert {α : Type} (m : Dict α) (k : Net) (v : α) (n : Net) :
    dmem (dinsert m k v) n = true ↔ (k = n ∨ dmem m n = true) := by
  simp only [dmem, dlookup_dinsert]
  by_cases h : k = n <;> simp [h]

theorem dmem_dinsert_of {α : Type} (m : Dict α) (k : Net) (v : α) (n : Net)
    (h : dmem m n = true) : dmem (dinsert m k v) n = true :=
  (dmem_dinsert m k v n).mpr (Or.inr h)

theorem mem_dkeys {α : Type} (m : Dict α) (n : Net) :
    n ∈ dkeys m ↔ dmem m n = true := by
  induction m with
  | nil => simp [dkeys, dmem, dlookup]
  | cons p t ih =>
    obtain ⟨k, v⟩ := p
    by_cases h : k = n
    · subst h
      simp [dkeys, dmem, dlookup]
    · simp only [dkeys, List.map_cons, List.mem_cons]
      constructor
      · intro hmem
        rcases hmem with h1 | h2
        · exact absurd h1.symm h
        · have := ih.mp (by simpa [dkeys] using h2)
          simpa [dmem, dlookup, h] using this
      · intro hd
        right
        have ht : dmem t n = true := by simpa [dmem, dlookup, h] using hd
        simpa [dkeys] using ih.mpr ht

/-! ### Lemmas about getAll, getAllN, minList, maxListN, sumList -/

theorem getAll_eq_some (m : Dict ℤ) (l : List Net)
    (h : ∀ i ∈ l, dmem m i = true) :
    ∃ qs, getAll m l = some qs ∧ qs.length = l.length := by
  induction l with
  | nil => exact ⟨[], rfl, rfl⟩
  | cons a t ih =>
    have ha : (dlookup m a).isSome := h a (List.mem_cons_self a t)
    obtain ⟨q, hq⟩ := Option.isSome_iff_exists.mp ha
    obtain ⟨qs, hqs, hlen⟩ := ih (fun i hi => h i (List.mem_cons_of_mem a hi))
    exact ⟨q :: qs, by simp [getAll, hq, hqs], by simp [hlen]⟩

theorem getAllN_eq_some (m : Dict ℕ) (l : List Net)
    (h : ∀ i ∈ l, dmem m i = true) :
    ∃ qs, getAllN m l = some qs ∧ qs.length = l.length := by
  induction l with
  | nil => exact ⟨[], rfl, rfl⟩
  | cons a t ih =>
    have ha : (dlookup m a).isSome := h a (List.mem_cons_self a t)
    obtain ⟨q, hq⟩ := Option.isSome_iff_exists.mp ha
    obtain ⟨qs, hqs, hlen⟩ := ih (fun i hi => h i (List.mem_cons_of_mem a hi))
    exact ⟨q :: qs, by simp [getAllN, hq, hqs], by simp [hlen]⟩

theorem getAll_mem (m : Dict ℤ) (l : List Net) (qs : List ℤ)
    (h : getAll m l = some qs) :
    ∀ q ∈ qs, ∃ i ∈ l, dlookup m i = some q := by
  induction l generalizing qs with
  | nil =>
    simp only [getAll, Option.some.injEq] at h
    subst h
    simp
  | cons a t ih =>
    simp only [getAll] at h
    cases ha : dlookup m a with
    | none => rw [ha] at h; exact absurd h (by simp)
    | some q0 =>
      rw [ha] at h
      cases hts : getAll m t with
      | none => rw [hts] at h; exact absurd h (by simp)
      | some qs' =>
        rw [hts] at h
        simp only [Option.some.injEq] at h
        subst h
        intro q hq
        rcases List.mem_cons.mp hq with h1 | h2
        · exact ⟨a, List.mem_cons_self a t, h1 ▸ ha⟩
        · obtain ⟨i, hi, hlk⟩ := ih qs' hts q h2
          exact ⟨i, List.mem_cons_of_mem a hi, hlk⟩

theorem getAll_length (m : Dict ℤ) (l : List Net) (qs : List ℤ)
    (h : getAll m l = some qs) : qs.length = l.length := by
  induction l generalizing qs with
  | nil =>
    simp only [getAll, Option.some.injEq] at h
    simp [← h]
  | cons a t ih =>
    simp only [getAll] at h
    cases ha : dlookup m a with
    | none => rw [ha] at h; exact absurd h (by simp)
    | some q0 =>
      rw [ha] at h
      cases hts : getAll m t with
      | none => rw [hts] at h; exact absurd h (by simp)
      | some qs' =>
        rw [hts] at h
        simp only [Option.some.injEq] at h
        subst h
        simp [ih qs' hts]

theorem minList_isSome (l : List ℤ) (h : l ≠ []) : ∃ v, minList l = some v := by
  cases l with
  | nil => exact absurd rfl h
  | cons x t => exact ⟨t.foldl min x, rfl⟩

theorem foldl_min_mem (t : List ℤ) (x : ℤ) : t.foldl min x ∈ x :: t := by
  induction t generalizing x with
  | nil => simp [List.foldl]
  | cons a t ih =>
    simp only [List.foldl]
    rcases List.mem_cons.mp (ih (min x a)) with h | h
    · rcases min_choice x a with hx | hx
      · exact List.mem_cons.mpr (Or.inl (h.trans hx))
      · exact List.mem_cons.mpr (Or.inr (List.mem_cons.mpr (Or.inl (h.trans hx))))
    · exact List.mem_cons.mpr (Or.inr (List.mem_cons.mpr (Or.inr h)))

theorem minList_mem (l : List ℤ) (v : ℤ) (h : minList l = some v) : v ∈ l := by
  cases l with
  | nil => simp [minList] at h
  | cons x t =>
    simp only [minList, Option.some.injEq] at h
    exact h ▸ foldl_min_mem t x

theorem maxListN_isSome (l : List ℕ) (h : l ≠ []) : ∃ v, maxListN l = some v := by
  cases l with
  | nil => exact absurd rfl h
  | cons x t => exact ⟨t.foldl max x, rfl⟩

theorem foldl_add_nonneg (l : List ℤ) (init : ℤ) (h0 : 0 ≤ init)
    (h : ∀ q ∈ l, 0 ≤ q) : 0 ≤ l.foldl (· + ·) init := by
  induction l generalizing init with
  | nil => simpa using h0
  | cons a t ih =>
    exact ih (init + a) (add_nonneg h0 (h a (List.mem_cons_self a t)))
      (fun q hq => h q (List.mem_cons_of_mem a hq))

theorem sumList_nonneg (l : List ℤ) (h : ∀ q ∈ l, 0 ≤ q) : 0 ≤ sumList l :=
  foldl_add_nonneg l 0 le_rfl h

theorem optFold_append {σ α : Type} (f : σ → α → Option σ) (s : σ)
    (l1 l2 : List α) :
    optFold f s (l1 ++ l2) =
      match optFold f s l1 with
      | none => none
      | some s' => optFold f s' l2 := by
  induction l1 generalizing s with
  | nil => simp [optFold]
  | cons a t ih =>
    simp only [List.cons_append, optFold]
    cases f s a with
    | none => simp
    | some s' => simpa using ih s'

/-! ### Control-flow lemmas: optFold invariants, branch unfoldings -/

theorem optFold_inv {σ α : Type} (P : σ → Prop) (f : σ → α → Option σ) (l : List α)
    (hstep : ∀ s a s', a ∈ l → P s → f s a = some s' → P s') :
    ∀ s s'', P s → optFold f s l = some s'' → P s'' := by
  induction l with
  | nil =>
    intro s s'' hP h
    simp only [optFold, Option.some.injEq] at h
    exact h ▸ hP
  | cons a t ih =>
    intro s s'' hP h
    simp only [optFold] at h
    cases hfa : f s a with
    | none => rw [hfa] at h; cases h
    | some s1 =>
      rw [hfa] at h
      exact ih (fun s a' s' ha' => hstep s a' s' (List.mem_cons_of_mem a ha'))
        s1 s'' (hstep s a s1 (List.mem_cons_self a t) hP hfa) h

theorem fwdCC_AND (st : St) (g : Gate) (hg : g.gtype = "AND") :
    fwdCC st g =
      match getAll st.CC0 g.ins with
      | none => none
      | some c0s =>
        match minList c0s with
        | none => none
        | some m =>
          let stA := { st with CC0 := dinsert st.CC0 g.out (m + 1) }
          match getAll stA.CC1 g.ins with
          | none => none
          | some c1s => some { stA with CC1 := dinsert stA.CC1 g.out (sumList c1s + 1) } := by
  simp only [fwdCC]
  rw [if_pos hg]

theorem fwdCC_NAND (st : St) (g : Gate) (hg : g.gtype = "NAND") :
    fwdCC st g =
      match getAll st.CC1 g.ins with
      | none => none
      | some c1s =>
        let stA := { st with CC0 := dinsert st.CC0 g.out (sumList c1s + 1) }
        match getAll stA.CC0 g.ins with
        | none => none
        | some c0s =>
          match minList c0s with
          | none => none
          | some m => some { stA with CC1 := dinsert stA.CC1 g.out (m + 1) } := by
  simp only [fwdCC]
  rw [if_neg (by simp [hg]), if_pos hg]

theorem fwdCC_OR (st : St) (g : Gate) (hg : g.gtype = "OR") :
    fwdCC st g =
      match getAll st.CC0 g.ins with
      | none => none
      | some c0s =>
        let stA := { st with CC0 := dinsert st.CC0 g.out (sumList c0s + 1) }
        match getAll stA.CC1 g.ins with
        | none => none
        | some c1s =>
          match minList c1s with
          | none => none
          | some m => some { stA with CC1 := dinsert stA.CC1 g.out (m + 1) } := by
  simp only [fwdCC]
  rw [if_neg (by simp [hg]), if_neg (by simp [hg]), if_pos hg]

theorem fwdCC_NOR (st : St) (g : Gate) (hg : g.gtype = "NOR") :
    fwdCC st g =
      match getAll st.CC1 g.ins with
      | none => none
      | some c1s =>
        match minList c1s with
        | none => none
        | some m =>
          let stA := { st with CC0 := dinsert st.CC0 g.out (m + 1) }
          match getAll stA.CC0 g.ins with
          | none => none
          | some c0s => some { stA with CC1 := dinsert stA.CC1 g.out (sumList c0s + 1) } := by
  simp only [fwdCC]
  rw [if_neg (by simp [hg]), if_neg (by simp [hg]), if_neg (by simp [hg]), if_pos hg]

theorem fwdCC_NOT (st : St) (g : Gate) (hg : g.gtype = "NOT") :
    fwdCC st g =
      match g.ins with
      | [] => none
      | i0 :: _ =>
        match dlookup st.CC1 i0 with
        | none => none
        | some v1 =>
          let stA := { st with CC0 := dinsert st.CC0 g.out (v1 + 1) }
          match dlookup stA.CC0 i0 with
          | none => none
          | some v0 => some { stA with CC1 := dinsert stA.CC1 g.out (v0 + 1) } := by
  simp only [fwdCC]
  rw [if_neg (by simp [hg]), if_neg (by simp [hg]), if_neg (by simp [hg]),
    if_neg (by simp [hg]), if_pos hg]

theorem fwdCC_BUF (st : St) (g : Gate) (hg : g.gtype = "BUF") :
    fwdCC st g =
      match g.ins with
      | [] => none
      | i0 :: _ =>
        match dlookup st.CC0 i0 with
        | none => none
        | some v0 =>
          let stA := { st with CC0 := dinsert st.CC0 g.out (v0 + 1) }
          match dlookup stA.CC1 i0 with
          | none => none
          | some v1 => some { stA with CC1 := dinsert stA.CC1 g.out (v1 + 1) } := by
  simp only [fwdCC]
  rw [if_neg (by simp [hg]), if_neg (by simp [hg]), if_neg (by simp [hg]),
    if_neg (by simp [hg]), if_neg (by simp [hg]), if_pos hg]

theorem fwdCC_XOR (st : St) (g : Gate) (hg : g.gtype = "XOR") :
    fwdCC st g =
      match g.ins with
      | [a, b] =>
        match dlookup st.CC0 a, dlookup st.CC0 b, dlookup st.CC1 a, dlookup st.CC1 b with
        | some a0, some b0, some a1, some b1 =>
          let stA := { st with CC0 := dinsert st.CC0 g.out (min (a0 + b0) (a1 + b1) + 1) }
          match dlookup stA.CC0 a, dlookup stA.CC0 b, dlookup stA.CC1 a, dlookup stA.CC1 b with
          | some a0', some b0', some a1', some b1' =>
            some { stA with CC1 := dinsert stA.CC1 g.out (min (a0' + b1') (a1' + b0') + 1) }
          | _, _, _, _ => none
        | _, _, _, _ => none
      | _ => some st := by
  simp only [fwdCC]
  rw [if_neg (by simp [hg]), if_neg (by simp [hg]), if_neg (by simp [hg]),
    if_neg (by simp [hg]), if_neg (by simp [hg]), if_neg (by simp [hg]), if_pos hg]

theorem fwdCC_XNOR (st : St) (g : Gate) (hg : g.gtype = "XNOR") :
    fwdCC st g =
      match g.ins with
      | [a, b] =>
        match dlookup st.CC0 a, dlookup st.CC0 b, dlookup st.CC1 a, dlookup st.CC1 b with
        | some a0, some b0, some a1, some b1 =>
          let stA := { st with CC1 := dinsert st.CC1 g.out (min (a0 + b0) (a1 + b1) + 1) }
          match dlookup stA.CC0 a, dlookup stA.CC0 b, dlookup stA.CC1 a, dlookup stA.CC1 b with
          | some a0', some b0', some a1', some b1' =>
            some { stA with CC0 := dinsert stA.CC0 g.out (min (a0' + b1') (a1' + b0') + 1) }
          | _, _, _, _ => none
        | _, _, _, _ => none
      | _ => some st := by
  simp only [fwdCC]
  rw [if_neg (by simp [hg]), if_neg (by simp [hg]), if_neg (by simp [hg]),
    if_neg (by simp [hg]), if_neg (by simp [hg]), if_neg (by simp [hg]),
    if_neg (by simp [hg]), if_pos hg]

theorem fwdCC_fallback (st : St) (g : Gate)
    (h1 : g.gtype ≠ "AND") (h2 : g.gtype ≠ "NAND") (h3 : g.gtype ≠ "OR")
    (h4 : g.gtype ≠ "NOR") (h5 : g.gtype ≠ "NOT") (h6 : g.gtype ≠ "BUF")
    (h7 : g.gtype ≠ "XOR") (h8 : g.gtype ≠ "XNOR") :
    fwdCC st g =
      (let stA := { st with CC0 := dinsert st.CC0 g.out 1 }
       some { stA with CC1 := dinsert stA.CC1 g.out 1 }) := by
  simp only [fwdCC]
  rw [if_neg h1, if_neg h2, if_neg h3, if_neg h4, if_neg h5, if_neg h6,
    if_neg h7, if_neg h8]

theorem backObsIn_ANDNAND (g : Gate) (s : St) (j : Net)
    (hg : g.gtype = "AND" ∨ g.gtype = "NAND") :
    backObsIn g s j =
      match dlookup s.CO g.out with
      | none => none
      | some co =>
        match getAll s.CC1 (g.ins.filter (fun i => i != j)) with
        | none => none
        | some c1s =>
          let s1 := { s with CO := dinsert s.CO j (co + sumList c1s + 1) }
          some { s1 with bkwd_level := dinsert s1.bkwd_level j (dgetD s1.bkwd_level g.out 0 + 1) } := by
  simp only [backObsIn]
  rw [if_pos hg]
  cases h1 : dlookup s.CO g.out with
  | none => rfl
  | some co =>
    cases h2 : getAll s.CC1 (g.ins.filter (fun i => i != j)) with
    | none => rfl
    | some c1s => rfl

theorem backObsIn_ORNOR (g : Gate) (s : St) (j : Net)
    (hg : g.gtype = "OR" ∨ g.gtype = "NOR") :
    backObsIn g s j =
      match dlookup s.CO g.out with
      | none => none
      | some co =>
        match getAll s.CC0 (g.ins.filter (fun i => i != j)) with
        | none => none
        | some c0s =>
          let s1 := { s with CO := dinsert s.CO j (co + sumList c0s + 1) }
          some { s1 with bkwd_level := dinsert s1.bkwd_level j (dgetD s1.bkwd_level g.out 0 + 1) } := by
  simp only [backObsIn]
  rw [if_neg (by rcases hg with h | h <;> simp [h]), if_pos hg]
  cases h1 : dlookup s.CO g.out with
  | none => rfl
  | some co =>
    cases h2 : getAll s.CC0 (g.ins.filter (fun i => i != j)) with
    | none => rfl
    | some c0s => rfl

theorem backObsIn_XORXNOR (g : Gate) (s : St) (j : Net)
    (hg : g.gtype = "XOR" ∨ g.gtype = "XNOR") :
    backObsIn g s j =
      match g.ins.filter (fun i => i != j) with
      | [k] =>
        match dlookup s.CO g.out with
        | none => none
        | some co =>
          match dlookup s.CC0 k, dlookup s.CC1 k with
          | some k0, some k1 =>
            let s1 := { s with CO := dinsert s.CO j (co + min k0 k1 + 1) }
            some { s1 with bkwd_level := dinsert s1.bkwd_level j (dgetD s1.bkwd_level g.out 0 + 1) }
          | _, _ => none
      | _ =>
        some { s with bkwd_level := dinsert s.bkwd_level j (dgetD s.bkwd_level g.out 0 + 1) } := by
  simp only [backObsIn]
  rw [if_neg (by rcases hg with h | h <;> simp [h]),
    if_neg (by rcases hg with h | h <;> simp [h]), if_pos hg]
  cases hf : g.ins.filter (fun i => i != j) with
  | nil => rfl
  | cons k t =>
    cases t with
    | nil =>
      dsimp only
      cases h1 : dlookup s.CO g.out with
      | none => rfl
      | some co =>
        cases h2 : dlookup s.CC0 k with
        | none => rfl
        | some k0 =>
          cases h3 : dlookup s.CC1 k with
          | none => rfl
          | some k1 => rfl
    | cons k2 t2 => rfl

theorem backObsIn_other (g : Gate) (s : St) (j : Net)
    (h1 : g.gtype ≠ "AND") (h2 : g.gtype ≠ "NAND") (h3 : g.gtype ≠ "OR")
    (h4 : g.gtype ≠ "NOR") (h5 : g.gtype ≠ "XOR") (h6 : g.gtype ≠ "XNOR") :
    backObsIn g s j =
      match dlookup s.CO g.out with
      | none => none
      | some co =>
        let s1 := { s with CO := dinsert s.CO j (co + 1) }
        some { s1 with bkwd_level := dinsert s1.bkwd_level j (dgetD s1.bkwd_level g.out 0 + 1) } := by
  simp only [backObsIn]
  rw [if_neg (by simp [h1, h2]), if_neg (by simp [h3, h4]), if_neg (by simp [h5, h6])]
  cases hc : dlookup s.CO g.out with
  | none => rfl
  | some co => rfl

/-! ### Shape of one forward-sweep step -/

theorem fwdCC_shape {st st1 : St} {g : Gate} (h : fwdCC st g = some st1) :
    st1.CO = st.CO ∧ st1.bkwd_level = st.bkwd_level ∧ st1.fwd_level = st.fwd_level ∧
    ((st1.CC0 = st.CC0 ∧ st1.CC1 = st.CC1) ∨
      ∃ v0 v1, st1.CC0 = dinsert st.CC0 g.out v0 ∧ st1.CC1 = dinsert st.CC1 g.out v1) := by
  obtain ⟨gt, out, ins, nm⟩ := g
  dsimp only
  by_cases hA : gt = "AND"
  · subst hA
    rw [fwdCC_AND st _ rfl] at h
    dsimp only at h
    rcases hc0 : getAll st.CC0 ins with _ | c0s
    · rw [hc0] at h; exact Option.noConfusion h
    simp only [hc0] at h
    rcases hm : minList c0s with _ | m
    · rw [hm] at h; exact Option.noConfusion h
    simp only [hm] at h
    rcases hc1 : getAll st.CC1 ins with _ | c1s
    · rw [hc1] at h; exact Option.noConfusion h
    simp only [hc1, Option.some.injEq] at h
    subst h
    exact ⟨rfl, rfl, rfl, Or.inr ⟨m + 1, sumList c1s + 1, rfl, rfl⟩⟩
  by_cases hN : gt = "NAND"
  · subst hN
    rw [fwdCC_NAND st _ rfl] at h
    dsimp only at h
    rcases hc1 : getAll st.CC1 ins with _ | c1s
    · rw [hc1] at h; exact Option.noConfusion h
    simp only [hc1] at h
    rcases hc0 : getAll (dinsert st.CC0 out (sumList c1s + 1)) ins with _ | c0s
    · rw [hc0] at h; exact Option.noConfusion h
    simp only [hc0] at h
    rcases hm : minList c0s with _ | m
    · rw [hm] at h; exact Option.noConfusion h
    simp only [hm, Option.some.injEq] at h
    subst h
    exact ⟨rfl, rfl, rfl, Or.inr ⟨sumList c1s + 1, m + 1, rfl, rfl⟩⟩
  by_cases hO : gt = "OR"
  · subst hO
    rw [fwdCC_OR st _ rfl] at h
    dsimp only at h
    rcases hc0 : getAll st.CC0 ins with _ | c0s
    · rw [hc0] at h; exact Option.noConfusion h
    simp only [hc0] at h
    rcases hc1 : getAll st.CC1 ins with _ | c1s
    · rw [hc1] at h; exact Option.noConfusion h
    simp only [hc1] at h
    rcases hm : minList c1s with _ | m
    · rw [hm] at h; exact Option.noConfusion h
    simp only [hm, Option.some.injEq] at h
    subst h
    exact ⟨rfl, rfl, rfl, Or.inr ⟨sumList c0s + 1, m + 1, rfl, rfl⟩⟩
  by_cases hNO : gt = "NOR"
  · subst hNO
    rw [fwdCC_NOR st _ rfl] at h
    dsimp only at h
    rcases hc1 : getAll st.CC1 ins with _ | c1s
    · rw [hc1] at h; exact Option.noConfusion h
    simp only [hc1] at h
    rcases hm : minList c1s with _ | m
    · rw [hm] at h; exact Option.noConfusion h
    simp only [hm] at h
    rcases hc0 : getAll (dinsert st.CC0 out (m + 1)) ins with _ | c0s
    · rw [hc0] at h; exact Option.noConfusion h
    simp only [hc0, Option.some.injEq] at h
    subst h
    exact ⟨rfl, rfl, rfl, Or.inr ⟨m + 1, sumList c0s + 1, rfl, rfl⟩⟩
  by_cases hNT : gt = "NOT"
  · subst hNT
    rw [fwdCC_NOT st _ rfl] at h
    dsimp only at h
    rcases ins with _ | ⟨i0, ins'⟩
    · exact Option.noConfusion h
    dsimp only at h
    rcases hv1 : dlookup st.CC1 i0 with _ | v1
    · rw [hv1] at h; exact Option.noConfusion h
    simp only [hv1] at h
    rcases hv0 : dlookup (dinsert st.CC0 out (v1 + 1)) i0 with _ | v0
    · rw [hv0] at h; exact Option.noConfusion h
    simp only [hv0, Option.some.injEq] at h
    subst h
    exact ⟨rfl, rfl, rfl, Or.inr ⟨v1 + 1, v0 + 1, rfl, rfl⟩⟩
  by_cases hB : gt = "BUF"
  · subst hB
    rw [fwdCC_BUF st _ rfl] at h
    dsimp only at h
    rcases ins with _ | ⟨i0, ins'⟩
    · exact Option.noConfusion h
    dsimp only at h
    rcases hv0 : dlookup st.CC0 i0 with _ | v0
    · rw [hv0] at h; exact Option.noConfusion h
    simp only [hv0] at h
    rcases hv1 : dlookup st.CC1 i0 with _ | v1
    · rw [hv1] at h; exact Option.noConfusion h
    simp only [hv1, Option.some.injEq] at h
    subst h
    exact ⟨rfl, rfl, rfl, Or.inr ⟨v0 + 1, v1 + 1, rfl, rfl⟩⟩
  by_cases hX : gt = "XOR"
  · subst hX
    rw [fwdCC_XOR st _ rfl] at h
    dsimp only at h
    rcases ins with _ | ⟨a, _ | ⟨b, _ | ⟨c, t⟩⟩⟩
    · obtain rfl := Option.some.inj h
      exact ⟨rfl, rfl, rfl, Or.inl ⟨rfl, rfl⟩⟩
    · obtain rfl := Option.some.inj h
      exact ⟨rfl, rfl, rfl, Or.inl ⟨rfl, rfl⟩⟩
    · dsimp only at h
      rcases ha0 : dlookup st.CC0 a with _ | a0
      · rw [ha0] at h; exact Option.noConfusion h
      rcases hb0 : dlookup st.CC0 b with _ | b0
      · rw [ha0, hb0] at h; exact Option.noConfusion h
      rcases ha1 : dlookup st.CC1 a with _ | a1
      · rw [ha0, hb0, ha1] at h; exact Option.noConfusion h
      rcases hb1 : dlookup st.CC1 b with _ | b1
      · rw [ha0, hb0, ha1, hb1] at h; exact Option.noConfusion h
      simp only [ha0, hb0, ha1, hb1] at h
      rcases ha0' : dlookup (dinsert st.CC0 out (min (a0 + b0) (a1 + b1) + 1)) a with _ | a0'
      · rw [ha0'] at h; exact Option.noConfusion h
      rcases hb0' : dlookup (dinsert st.CC0 out (min (a0 + b0) (a1 + b1) + 1)) b with _ | b0'
      · rw [ha0', hb0'] at h; exact Option.noConfusion h
      simp only [ha0', hb0', Option.some.injEq] at h
      subst h
      exact ⟨rfl, rfl, rfl,
        Or.inr ⟨min (a0 + b0) (a1 + b1) + 1, min (a0' + b1) (a1 + b0') + 1, rfl, rfl⟩⟩
    · obtain rfl := Option.some.inj h
      exact ⟨rfl, rfl, rfl, Or.inl ⟨rfl, rfl⟩⟩
  by_cases hXN : gt = "XNOR"
  · subst hXN
    rw [fwdCC_XNOR st _ rfl] at h
    dsimp only at h
    rcases ins with _ | ⟨a, _ | ⟨b, _ | ⟨c, t⟩⟩⟩
    · obtain rfl := Option.some.inj h
      exact ⟨rfl, rfl, rfl, Or.inl ⟨rfl, rfl⟩⟩
    · obtain rfl := Option.some.inj h
      exact ⟨rfl, rfl, rfl, Or.inl ⟨rfl, rfl⟩⟩
    · dsimp only at h
      rcases ha0 : dlookup st.CC0 a with _ | a0
      · rw [ha0] at h; exact Option.noConfusion h
      rcases hb0 : dlookup st.CC0 b with _ | b0
      · rw [ha0, hb0] at h; exact Option.noConfusion h
      rcases ha1 : dlookup st.CC1 a with _ | a1
      · rw [ha0, hb0, ha1] at h; exact Option.noConfusion h
      rcases hb1 : dlookup st.CC1 b with _ | b1
      · rw [ha0, hb0, ha1, hb1] at h; exact Option.noConfusion h
      simp only [ha0, hb0, ha1, hb1] at h
      rcases ha1' : dlookup (dinsert st.CC1 out (min (a0 + b0) (a1 + b1) + 1)) a with _ | a1'
      · rw [ha1'] at h; exact Option.noConfusion h
      rcases hb1' : dlookup (dinsert st.CC1 out (min (a0 + b0) (a1 + b1) + 1)) b with _ | b1'
      · rw [ha1', hb1'] at h; exact Option.noConfusion h
      simp only [ha1', hb1', Option.some.injEq] at h
      subst h
      exact ⟨rfl, rfl, rfl,
        Or.inr ⟨min (a0 + b1') (a1' + b0) + 1, min (a0 + b0) (a1 + b1) + 1, rfl, rfl⟩⟩
    · obtain rfl := Option.some.inj h
      exact ⟨rfl, rfl, rfl, Or.inl ⟨rfl, rfl⟩⟩
  rw [fwdCC_fallback st _ hA hN hO hNO hNT hB hX hXN] at h
  dsimp only at h
  obtain rfl := Option.some.inj h
  exact ⟨rfl, rfl, rfl, Or.inr ⟨1, 1, rfl, rfl⟩⟩

theorem forwardStep_shape {st st' : St} {g : Gate} (h : forwardStep st g = some st') :
    st'.CO = st.CO ∧ st'.bkwd_level = st.bkwd_level ∧
    (st' = st ∨
      ((∃ lv, st'.fwd_level = dinsert st.fwd_level g.out lv) ∧
        ((st'.CC0 = st.CC0 ∧ st'.CC1 = st.CC1) ∨
          ∃ v0 v1, st'.CC0 = dinsert st.CC0 g.out v0 ∧ st'.CC1 = dinsert st.CC1 g.out v1))) := by
  unfold forwardStep at h
  by_cases hg : g.ins.all (fun i => dmem st.CC0 i)
  · rw [if_pos hg] at h
    rcases hf : fwdCC st g with _ | st1
    · rw [hf] at h; exact Option.noConfusion h
    simp only [hf] at h
    rcases hl : getAllN st1.fwd_level g.ins with _ | lvls
    · rw [hl] at h; exact Option.noConfusion h
    simp only [hl] at h
    rcases hm : maxListN lvls with _ | mx
    · rw [hm] at h; exact Option.noConfusion h
    simp only [hm, Option.some.injEq] at h
    subst h
    obtain ⟨hco, hbk, hfw, hcc⟩ := fwdCC_shape hf
    refine ⟨hco, hbk, Or.inr ⟨⟨mx + 1, by rw [hfw]⟩, ?_⟩⟩
    rcases hcc with ⟨h1, h2⟩ | ⟨v0, v1, h1, h2⟩
    · exact Or.inl ⟨h1, h2⟩
    · exact Or.inr ⟨v0, v1, h1, h2⟩
  · rw [if_neg hg] at h
    obtain rfl := Option.some.inj h
    exact ⟨rfl, rfl, Or.inl rfl⟩

/-! ### Seeding lemmas -/

theorem seedInputs_cons (st : St) (i : Net) (t : List Net) :
    seedInputs st (i :: t) =
      seedInputs
        { st with
          CC0 := dinsert st.CC0 i 1
          CC1 := dinsert st.CC1 i 1
          fwd_level := dinsert st.fwd_level i 0 } t := rfl

theorem seedSeq_cons (st : St) (c : SeqCell) (t : List SeqCell) :
    seedSeq st (c :: t) =
      seedSeq
        { st with
          CC0 := dinsert st.CC0 c.output 1
          CC1 := dinsert st.CC1 c.output 1
          fwd_level := dinsert st.fwd_level c.output 0 } t := rfl

theorem seedOutputs_cons (st : St) (i : Net) (t : List Net) :
    seedOutputs st (i :: t) =
      seedOutputs
        { st with
          CO := dinsert st.CO i 0
          bkwd_level := dinsert st.bkwd_level i 0 } t := rfl

theorem seedOutputs_CC (st : St) (l : List Net) :
    (seedOutputs st l).CC0 = st.CC0 ∧ (seedOutputs st l).CC1 = st.CC1 ∧
      (seedOutputs st l).fwd_level = st.fwd_level := by
  induction l generalizing st with
  | nil => exact ⟨rfl, rfl, rfl⟩
  | cons i t ih =>
    rw [seedOutputs_cons]
    exact ih _

theorem DomInv_initSt : DomInv initSt := by
  intro n hn
  simp [initSt, dmem, dlookup] at hn

theorem DomInv_seedInputs (st : St) (l : List Net) (h : DomInv st) :
    DomInv (seedInputs st l) := by
  induction l generalizing st with
  | nil => exact h
  | cons i t ih =>
    rw [seedInputs_cons]
    refine ih _ ?_
    intro n hn
    rcases (dmem_dinsert _ _ _ _).mp hn with rfl | hn'
    · exact ⟨(dmem_dinsert _ _ _ _).mpr (Or.inl rfl), (dmem_dinsert _ _ _ _).mpr (Or.inl rfl)⟩
    · obtain ⟨h1, h2⟩ := h n hn'
      exact ⟨dmem_dinsert_of _ _ _ _ h1, dmem_dinsert_of _ _ _ _ h2⟩

theorem DomInv_seedSeq (st : St) (l : List SeqCell) (h : DomInv st) :
    DomInv (seedSeq st l) := by
  induction l generalizing st with
  | nil => exact h
  | cons c t ih =>
    rw [seedSeq_cons]
    refine ih _ ?_
    intro n hn
    rcases (dmem_dinsert _ _ _ _).mp hn with rfl | hn'
    · exact ⟨(dmem_dinsert _ _ _ _).mpr (Or.inl rfl), (dmem_dinsert _ _ _ _).mpr (Or.inl rfl)⟩
    · obtain ⟨h1, h2⟩ := h n hn'
      exact ⟨dmem_dinsert_of _ _ _ _ h1, dmem_dinsert_of _ _ _ _ h2⟩

theorem DomInv_forwardStep {st st' : St} {g : Gate} (h : DomInv st)
    (hs : forwardStep st g = some st') : DomInv st' := by
  obtain ⟨-, -, hsh⟩ := forwardStep_shape hs
  rcases hsh with rfl | ⟨⟨lv, hfw⟩, hcc⟩
  · exact h
  rcases hcc with ⟨h0, h1⟩ | ⟨v0, v1, h0, h1⟩
  · intro n hn
    rw [h0] at hn
    obtain ⟨hc1, hfl⟩ := h n hn
    rw [h1, hfw]
    exact ⟨hc1, dmem_dinsert_of _ _ _ _ hfl⟩
  · intro n hn
    rw [h0] at hn
    rw [h1, hfw]
    rcases (dmem_dinsert _ _ _ _).mp hn with rfl | hn'
    · exact ⟨(dmem_dinsert _ _ _ _).mpr (Or.inl rfl), (dmem_dinsert _ _ _ _).mpr (Or.inl rfl)⟩
    · obtain ⟨hc1, hfl⟩ := h n hn'
      exact ⟨dmem_dinsert_of _ _ _ _ hc1, dmem_dinsert_of _ _ _ _ hfl⟩

theorem DomInv_forwardPhase (inputs : List Net) (seq_cells : List SeqCell)
    (gates : List Gate) (st3 : St)
    (h : forwardPhase inputs seq_cells gates = some st3) : DomInv st3 :=
  optFold_inv DomInv forwardStep gates
    (fun _ _ _ _ hP hstep => DomInv_forwardStep hP hstep)
    _ _ (DomInv_seedSeq _ _ (DomInv_seedInputs _ _ DomInv_initSt)) h

/-! ### Totality of the backward sweep under controllability coverage -/

theorem backObsIn_total (g : Gate) (s : St) (j : Net)
    (hco : dmem s.CO g.out = true)
    (hins : ∀ i ∈ g.ins, dmem s.CC0 i = true ∧ dmem s.CC1 i = true) :
    ∃ s', backObsIn g s j = some s' ∧ s'.CC0 = s.CC0 ∧ s'.CC1 = s.CC1 ∧
      s'.fwd_level = s.fwd_level ∧ ∀ n, dmem s.CO n = true → dmem s'.CO n = true := by
  obtain ⟨co, hco0⟩ := Option.isSome_iff_exists.mp hco
  by_cases h1 : g.gtype = "AND" ∨ g.gtype = "NAND"
  · rw [backObsIn_ANDNAND g s j h1]
    have hmem : ∀ i ∈ g.ins.filter (fun i => i != j), dmem s.CC1 i = true :=
      fun i hi => (hins i (List.mem_of_mem_filter hi)).2
    obtain ⟨c1s, hc1s, -⟩ := getAll_eq_some _ _ hmem
    simp only [hco0, hc1s]
    exact ⟨_, rfl, rfl, rfl, rfl, fun n hn => dmem_dinsert_of _ _ _ _ hn⟩
  by_cases h2 : g.gtype = "OR" ∨ g.gtype = "NOR"
  · rw [backObsIn_ORNOR g s j h2]
    have hmem : ∀ i ∈ g.ins.filter (fun i => i != j), dmem s.CC0 i = true :=
      fun i hi => (hins i (List.mem_of_mem_filter hi)).1
    obtain ⟨c0s, hc0s, -⟩ := getAll_eq_some _ _ hmem
    simp only [hco0, hc0s]
    exact ⟨_, rfl, rfl, rfl, rfl, fun n hn => dmem_dinsert_of _ _ _ _ hn⟩
  by_cases h3 : g.gtype = "XOR" ∨ g.gtype = "XNOR"
  · rw [backObsIn_XORXNOR g s j h3]
    rcases hf : g.ins.filter (fun i => i != j) with _ | ⟨k, _ | ⟨k2, t2⟩⟩
    · simp only [hf]
      exact ⟨_, rfl, rfl, rfl, rfl, fun n hn => hn⟩
    · have hkf : k ∈ g.ins.filter (fun i => i != j) := by
        rw [hf]; exact List.mem_singleton_self k
      obtain ⟨hk0m, hk1m⟩ := hins k (List.mem_of_mem_filter hkf)
      obtain ⟨k0, hk0⟩ := Option.isSome_iff_exists.mp hk0m
      obtain ⟨k1, hk1⟩ := Option.isSome_iff_exists.mp hk1m
      simp only [hf, hco0, hk0, hk1]
      exact ⟨_, rfl, rfl, rfl, rfl, fun n hn => dmem_dinsert_of _ _ _ _ hn⟩
    · simp only [hf]
      exact ⟨_, rfl, rfl, rfl, rfl, fun n hn => hn⟩
  obtain ⟨hA, hN⟩ := not_or.mp h1
  obtain ⟨hO, hNO⟩ := not_or.mp h2
  obtain ⟨hX, hXN⟩ := not_or.mp h3
  rw [backObsIn_other g s j hA hN hO hNO hX hXN]
  simp only [hco0]
  exact ⟨_, rfl, rfl, rfl, rfl, fun n hn => dmem_dinsert_of _ _ _ _ hn⟩

theorem backObs_fold_total (g : Gate) (l : List Net) :
    ∀ s : St, dmem s.CO g.out = true →
      (∀ i ∈ g.ins, dmem s.CC0 i = true ∧ dmem s.CC1 i = true) →
      ∃ s', optFold (backObsIn g) s l = some s' ∧ s'.CC0 = s.CC0 ∧ s'.CC1 = s.CC1 ∧
        s'.fwd_level = s.fwd_level ∧ ∀ n, dmem s.CO n = true → dmem s'.CO n = true := by
  induction l with
  | nil => exact fun s _ _ => ⟨s, rfl, rfl, rfl, rfl, fun n hn => hn⟩
  | cons j t ih =>
    intro s h1 h2
    obtain ⟨s1, hs1, hc0, hc1, hfw, hcom⟩ := backObsIn_total g s j h1 h2
    obtain ⟨s', hs', hc0', hc1', hfw', hcom'⟩ :=
      ih s1 (hcom _ h1) (fun i hi => by rw [hc0, hc1]; exact h2 i hi)
    refine ⟨s', ?_, hc0'.trans hc0, hc1'.trans hc1, hfw'.trans hfw,
      fun n hn => hcom' n (hcom n hn)⟩
    simp only [optFold, hs1]
    exact hs'

theorem backwardStep_total (g : Gate) (st : St)
    (hins : ∀ i ∈ g.ins, dmem st.CC0 i = true ∧ dmem st.CC1 i = true) :
    ∃ st', backwardStep st g = some st' ∧ st'.CC0 = st.CC0 ∧ st'.CC1 = st.CC1 ∧
      st'.fwd_level = st.fwd_level := by
  unfold backwardStep
  by_cases hg : dmem st.CO g.out
  · rw [if_pos hg]
    obtain ⟨s', hs', hc0, hc1, hfw, -⟩ := backObs_fold_total g g.ins st hg hins
    exact ⟨s', hs', hc0, hc1, hfw⟩
  · rw [if_neg hg]
    exact ⟨st, rfl, rfl, rfl, rfl⟩

theorem backward_fold_total (gates' : List Gate) :
    ∀ s : St, (∀ g ∈ gates', ∀ i ∈ g.ins, dmem s.CC0 i = true ∧ dmem s.CC1 i = true) →
      ∃ s', optFold backwardStep s gates' = some s' := by
  induction gates' with
  | nil => exact fun s _ => ⟨s, rfl⟩
  | cons g t ih =>
    intro s hg
    obtain ⟨s1, hs1, hc0, hc1, -⟩ :=
      backwardStep_total g s (hg g (List.mem_cons_self g t))
    obtain ⟨s', hs'⟩ := ih s1 (fun g' hg' i hi => by
      rw [hc0, hc1]; exact hg g' (List.mem_cons_of_mem g hg') i hi)
    refine ⟨s', ?_⟩
    simp only [optFold, hs1]
    exact hs'

/-! ### Claim C1 (corrected): totality fails in general; it holds when the
forward sweep succeeds and covers every gate input -/

/-- C1 counterexample: the claim "the scoap function never raises an
exception on any well-typed input" is false.  On the netlist with no
primary inputs, output y and the single gate AND(y; a, b), the forward
sweep skips the gate (a has no CC0 entry), the backward sweep seeds
CO[y] = 0 and then reads CC1[b] while computing CO[a] — a KeyError,
modelled here by `scoap` returning `none`. -/
theorem C1_counterexample :
    scoap [] ["y"] [⟨"AND", "y", ["a", "b"], "g"⟩] [] = none := by rfl

/-- C1 (amended): the analysis returns a metrics bundle provided the
forward sweep completes and leaves every input of every gate with a CC0
entry; without that coverage the backward sweep's reads of CC1/CC0 of the
other inputs of a gate whose output has a CO value can fail. -/
theorem C1_amended_total (inputs outputs : List Net) (gates : List Gate)
    (seq_cells : List SeqCell) (st3 : St)
    (hfwd : forwardPhase inputs seq_cells gates = some st3)
    (hcov : ∀ g ∈ gates, ∀ i ∈ g.ins, dmem st3.CC0 i = true) :
    (scoap inputs outputs gates seq_cells).isSome = true := by
  have hdom := DomInv_forwardPhase inputs seq_cells gates st3 hfwd
  obtain ⟨hc0, hc1, -⟩ := seedOutputs_CC st3 outputs
  obtain ⟨st5, hst5⟩ := backward_fold_total gates.reverse (seedOutputs st3 outputs)
    (fun g hg i hi => by
      rw [hc0, hc1]
      have h0 := hcov g (List.mem_reverse.mp hg) i hi
      exact ⟨h0, (hdom i h0).1⟩)
  unfold scoap
  rw [hfwd]
  dsimp only
  rw [hst5]
  rfl

/-- Witness for C1_amended_total at Scenario 1. -/
theorem C1_amended_total_witness :
    (scoap ["a", "b"] ["y"] [⟨"AND", "y", ["a", "b"], "g1"⟩] []).isSome = true :=
  C1_amended_total ["a", "b"] ["y"] [⟨"AND", "y", ["a", "b"], "g1"⟩] []
    ⟨[("a", 1), ("b", 1), ("y", 2)], [("a", 1), ("b", 1), ("y", 3)], [],
      [("a", 0), ("b", 0), ("y", 1)], []⟩
    (by decide) (by decide)

/-- C2: Scenario 1.  On inputs {a, b}, outputs {y}, the single gate
AND(y; a, b): CC0[a] = CC1[a] = CC0[b] = CC1[b] = 1, CC0[y] = 2,
CC1[y] = 3, FwdLev[y] = 1, CO[y] = 0, CO[a] = CO[b] = 2,
BkwdLev[a] = BkwdLev[b] = 1. -/
theorem C2_scenario1 :
    (scoap ["a", "b"] ["y"] [⟨"AND", "y", ["a", "b"], "g1"⟩] []).map
      (fun r =>
        (dlookup r.CC0 "a", dlookup r.CC1 "a", dlookup r.CC0 "b", dlookup r.CC1 "b",
         dlookup r.CC0 "y", dlookup r.CC1 "y", dlookup r.fwd_level "y",
         dlookup r.CO "y", dlookup r.CO "a", dlookup r.CO "b",
         dlookup r.bkwd_level "a", dlookup r.bkwd_level "b")) =
      some (some 1, some 1, some 1, some 1, some 2, some 3, some 1,
            some 0, some 2, some 2, some 1, some 1) := by rfl

/-! ### Claims C4, C6, C9, C10 -/

theorem getAll_dinsert_notmem (m : Dict ℤ) (k : Net) (v : ℤ) (l : List Net)
    (h : k ∉ l) : getAll (dinsert m k v) l = getAll m l := by
  induction l with
  | nil => rfl
  | cons a t ih =>
    have hka : k ≠ a := fun he => h (he ▸ List.mem_cons_self a t)
    simp only [getAll, dlookup_dinsert, if_neg hka,
      ih (fun ht => h (List.mem_cons_of_mem a ht))]

/-- C4: in the forward sweep a gate is evaluated iff every one of its
inputs already has a CC0 entry: when the guard fails the step returns the
state unchanged (no CC0/CC1/FwdLev entry for the output, no error), and
when it holds, a successful step records a forward level for the output. -/
theorem C4_forward_guard (st : St) (g : Gate) :
    (g.ins.all (fun i => dmem st.CC0 i) = false → forwardStep st g = some st) ∧
    (g.ins.all (fun i => dmem st.CC0 i) = true →
      ∀ st', forwardStep st g = some st' →
        (dlookup st'.fwd_level g.out).isSome = true) := by
  constructor
  · intro hg
    unfold forwardStep
    rw [if_neg (by simp [hg])]
  · intro hg st' h
    unfold forwardStep at h
    rw [if_pos hg] at h
    rcases hf : fwdCC st g with _ | st1
    · rw [hf] at h; exact Option.noConfusion h
    simp only [hf] at h
    rcases hl : getAllN st1.fwd_level g.ins with _ | lvls
    · rw [hl] at h; exact Option.noConfusion h
    simp only [hl] at h
    rcases hm : maxListN lvls with _ | mx
    · rw [hm] at h; exact Option.noConfusion h
    simp only [hm, Option.some.injEq] at h
    subst h
    simp [dlookup_dinsert]

/-- Witness for C4_forward_guard: a skipped gate on the empty state, and
an evaluated 1-input AND gate. -/
theorem C4_forward_guard_witness :
    forwardStep initSt ⟨"AND", "y", ["a"], "g"⟩ = some initSt ∧
    (dlookup (⟨[("a", 1), ("y", 2)], [("a", 1), ("y", 2)], [], [("a", 0), ("y", 1)], []⟩ : St).fwd_level
        "y").isSome = true :=
  ⟨(C4_forward_guard initSt ⟨"AND", "y", ["a"], "g"⟩).1 (by decide),
   (C4_forward_guard ⟨[("a", 1)], [("a", 1)], [], [("a", 0)], []⟩ ⟨"AND", "y", ["a"], "g"⟩).2
     (by decide) _ (by decide)⟩

/-- C6: an XOR/XNOR gate with input arity other than 2 whose inputs all
have CC0 entries advances FwdLev(out) = max(FwdLev over ins) + 1 but
assigns neither CC0(out) nor CC1(out) (the state is unchanged except for
the forward level; the 1.0 fallback branch is not taken). -/
theorem C6_xor_arity (st : St) (g : Gate) (ls : List ℕ) (mx : ℕ)
    (hx : g.gtype = "XOR" ∨ g.gtype = "XNOR")
    (hlen : g.ins.length ≠ 2)
    (hguard : g.ins.all (fun i => dmem st.CC0 i) = true)
    (hls : getAllN st.fwd_level g.ins = some ls)
    (hmx : maxListN ls = some mx) :
    forwardStep st g = some { st with fwd_level := dinsert st.fwd_level g.out (mx + 1) } := by
  obtain ⟨gt, out, ins, nm⟩ := g
  dsimp only at hlen hguard hls hx ⊢
  have hcc : fwdCC st ⟨gt, out, ins, nm⟩ = some st := by
    rcases hx with h | h <;> subst h
    · rw [fwdCC_XOR st _ rfl]
      dsimp only
      rcases ins with _ | ⟨a, _ | ⟨b, _ | ⟨c, t⟩⟩⟩
      · rfl
      · rfl
      · exact absurd rfl hlen
      · rfl
    · rw [fwdCC_XNOR st _ rfl]
      dsimp only
      rcases ins with _ | ⟨a, _ | ⟨b, _ | ⟨c, t⟩⟩⟩
      · rfl
      · rfl
      · exact absurd rfl hlen
      · rfl
  unfold forwardStep
  dsimp only
  rw [if_pos hguard]
  simp only [hcc, hls, hmx]

/-- Witness for C6_xor_arity: a 1-input XOR gate. -/
theorem C6_xor_arity_witness :
    forwardStep ⟨[("a", 1)], [("a", 1)], [], [("a", 0)], []⟩ ⟨"XOR", "y", ["a"], "g"⟩ =
      some { (⟨[("a", 1)], [("a", 1)], [], [("a", 0)], []⟩ : St) with
              fwd_level := dinsert [("a", 0)] "y" (0 + 1) } :=
  C6_xor_arity ⟨[("a", 1)], [("a", 1)], [], [("a", 0)], []⟩ ⟨"XOR", "y", ["a"], "g"⟩ [0] 0
    (Or.inl rfl) (by decide) (by decide) (by decide) (by decide)

/-- C9 counterexample: replacing every AND with NAND does not swap the
CC0/CC1 maps in general.  On inputs {a, b}, gates AND(c; a, b) then
AND(y; c, a): CC1[y] = 5, while the NAND-netlist has CC0[y] = 4. -/
theorem C9_counterexample :
    ¬ ((scoap ["a", "b"] ["y"]
          [⟨"NAND", "c", ["a", "b"], "g1"⟩, ⟨"NAND", "y", ["c", "a"], "g2"⟩] []).map Result.CC0 =
       (scoap ["a", "b"] ["y"]
          [⟨"AND", "c", ["a", "b"], "g1"⟩, ⟨"AND", "y", ["c", "a"], "g2"⟩] []).map Result.CC1) := by
  decide

/-- C9 (amended): the De Morgan swap holds gate-locally.  For a single
gate whose output is not among its inputs, evaluated on the same state,
the NAND transfer produces exactly the swapped pair of the AND transfer:
CC0_NAND(out) = CC1_AND(out) and CC1_NAND(out) = CC0_AND(out).  The
whole-netlist map swap fails once an AND output feeds another AND. -/
theorem C9_amended (st : St) (out : Net) (ins : List Net) (nmA nmN : String)
    (stA stN : St) (hout : out ∉ ins)
    (hA : fwdCC st ⟨"AND", out, ins, nmA⟩ = some stA)
    (hN : fwdCC st ⟨"NAND", out, ins, nmN⟩ = some stN) :
    dlookup stN.CC0 out = dlookup stA.CC1 out ∧
    dlookup stN.CC1 out = dlookup stA.CC0 out := by
  rw [fwdCC_AND st _ rfl] at hA
  rw [fwdCC_NAND st _ rfl] at hN
  dsimp only at hA hN
  rcases hc0 : getAll st.CC0 ins with _ | c0s
  · rw [hc0] at hA; exact Option.noConfusion hA
  simp only [hc0] at hA
  rcases hm : minList c0s with _ | m
  · rw [hm] at hA; exact Option.noConfusion hA
  simp only [hm] at hA
  rcases hc1 : getAll st.CC1 ins with _ | c1s
  · rw [hc1] at hA; exact Option.noConfusion hA
  simp only [hc1, Option.some.injEq] at hA
  subst hA
  simp only [hc1] at hN
  have hget : getAll (dinsert st.CC0 out (sumList c1s + 1)) ins = some c0s :=
    (getAll_dinsert_notmem st.CC0 out (sumList c1s + 1) ins hout).trans hc0
  simp only [hget, hm, Option.some.injEq] at hN
  subst hN
  constructor
  · rw [dlookup_dinsert, dlookup_dinsert]
    simp
  · rw [dlookup_dinsert, dlookup_dinsert]
    simp

/-- Witness for C9_amended on a state with asymmetric controllabilities. -/
theorem C9_amended_witness :
    dlookup ([("a", 1), ("b", 2), ("y", 8)] : Dict ℤ) "y" =
        dlookup ([("a", 3), ("b", 4), ("y", 8)] : Dict ℤ) "y" ∧
    dlookup ([("a", 3), ("b", 4), ("y", 2)] : Dict ℤ) "y" =
        dlookup ([("a", 1), ("b", 2), ("y", 2)] : Dict ℤ) "y" :=
  C9_amended ⟨[("a", 1), ("b", 2)], [("a", 3), ("b", 4)], [], [], []⟩ "y" ["a", "b"] "gA" "gN"
    ⟨[("a", 1), ("b", 2), ("y", 2)], [("a", 3), ("b", 4), ("y", 8)], [], [], []⟩
    ⟨[("a", 1), ("b", 2), ("y", 8)], [("a", 3), ("b", 4), ("y", 2)], [], [], []⟩
    (by decide) (by decide) (by decide)

/-- C10: the backward sweep computes "other inputs" by filtering out every
occurrence of the name j.  For a gate with duplicated input [a, a] whose
output has CO: AND/NAND/OR/NOR give CO(a) = CO(out) + 1 (no other-input
term), while a 2-input XOR/XNOR leaves CO untouched (zero "other" inputs,
so the arity-1 guard fails) yet still assigns
BkwdLev(a) = bkwd_level.get(out, 0) + 1. -/
theorem C10_duplicate_inputs (st : St) (out a : Net) (nm : String) (co : ℤ)
    (hne : a ≠ out) (hco : dlookup st.CO out = some co) :
    (∀ gt ∈ (["AND", "NAND", "OR", "NOR"] : List String),
      ∃ st', backwardStep st ⟨gt, out, [a, a], nm⟩ = some st' ∧
        dlookup st'.CO a = some (co + 1) ∧
        dlookup st'.bkwd_level a = some (dgetD st.bkwd_level out 0 + 1)) ∧
    (∀ gt ∈ (["XOR", "XNOR"] : List String),
      ∃ st', backwardStep st ⟨gt, out, [a, a], nm⟩ = some st' ∧
        st'.CO = st.CO ∧
        dlookup st'.bkwd_level a = some (dgetD st.bkwd_level out 0 + 1)) := by
  have hmem : dmem st.CO out = true := by simp [dmem, hco]
  have hfilter : List.filter (fun i => i != a) [a, a] = [] := by simp
  have hout2 : dlookup (dinsert st.CO a (co + sumList [] + 1)) out = some co := by
    rw [dlookup_dinsert, if_neg hne]
    exact hco
  have hbk2 : ∀ w : ℕ, dgetD (dinsert st.bkwd_level a w) out 0 = dgetD st.bkwd_level out 0 := by
    intro w
    simp only [dgetD, dlookup_dinsert, if_neg hne]
  constructor
  · intro gt hgt
    have hcase : gt = "AND" ∨ gt = "NAND" ∨ gt = "OR" ∨ gt = "NOR" := by
      simpa using hgt
    have hb : ∀ s : St, dlookup s.CO out = some co →
        backObsIn ⟨gt, out, [a, a], nm⟩ s a =
          some { s with
                 CO := dinsert s.CO a (co + sumList [] + 1)
                 bkwd_level := dinsert s.bkwd_level a (dgetD s.bkwd_level out 0 + 1) } := by
      intro s hs
      rcases hcase with h | h | h | h <;> subst h
      · rw [backObsIn_ANDNAND _ _ _ (Or.inl rfl)]
        simp only [hs, hfilter]
        rfl
      · rw [backObsIn_ANDNAND _ _ _ (Or.inr rfl)]
        simp only [hs, hfilter]
        rfl
      · rw [backObsIn_ORNOR _ _ _ (Or.inl rfl)]
        simp only [hs, hfilter]
        rfl
      · rw [backObsIn_ORNOR _ _ _ (Or.inr rfl)]
        simp only [hs, hfilter]
        rfl
    refine ⟨{ st with
        CO := dinsert (dinsert st.CO a (co + sumList [] + 1)) a (co + sumList [] + 1),
        bkwd_level :=
          dinsert (dinsert st.bkwd_level a (dgetD st.bkwd_level out 0 + 1)) a
            (dgetD (dinsert st.bkwd_level a (dgetD st.bkwd_level out 0 + 1)) out 0 + 1) },
      ?_, ?_, ?_⟩
    · unfold backwardStep
      rw [if_pos hmem]
      show optFold _ st [a, a] = _
      simp only [optFold, hb, hco, hout2]
    · dsimp only
      rw [dlookup_dinsert]
      simp [sumList]
    · dsimp only
      rw [dlookup_dinsert]
      simp [hbk2]
  · intro gt hgt
    have hcase : gt = "XOR" ∨ gt = "XNOR" := by simpa using hgt
    have hb : ∀ s : St, backObsIn ⟨gt, out, [a, a], nm⟩ s a =
        some { s with
               bkwd_level := dinsert s.bkwd_level a (dgetD s.bkwd_level out 0 + 1) } := by
      intro s
      have hx : (⟨gt, out, [a, a], nm⟩ : Gate).gtype = "XOR" ∨
          (⟨gt, out, [a, a], nm⟩ : Gate).gtype = "XNOR" := hcase
      rw [backObsIn_XORXNOR _ _ _ hx]
      simp only [hfilter]
    refine ⟨{ st with
        bkwd_level :=
          dinsert (dinsert st.bkwd_level a (dgetD st.bkwd_level out 0 + 1)) a
            (dgetD (dinsert st.bkwd_level a (dgetD st.bkwd_level out 0 + 1)) out 0 + 1) },
      ?_, rfl, ?_⟩
    · unfold backwardStep
      rw [if_pos hmem]
      show optFold _ st [a, a] = _
      simp only [optFold, hb]
    · dsimp only
      rw [dlookup_dinsert]
      simp [hbk2]

/-- Witness for C10_duplicate_inputs at a concrete state. -/
theorem C10_duplicate_inputs_witness :
    (∃ st', backwardStep (⟨[("a", 1)], [("a", 1)], [("y", 0)], [], [("y", 0)]⟩ : St)
        ⟨"AND", "y", ["a", "a"], "g"⟩ = some st' ∧
      dlookup st'.CO "a" = some (0 + 1) ∧
      dlookup st'.bkwd_level "a" =
        some (dgetD ([("y", 0)] : Dict ℕ) "y" 0 + 1)) ∧
    (∃ st', backwardStep (⟨[("a", 1)], [("a", 1)], [("y", 0)], [], [("y", 0)]⟩ : St)
        ⟨"XOR", "y", ["a", "a"], "g"⟩ = some st' ∧
      st'.CO = ([("y", 0)] : Dict ℤ) ∧
      dlookup st'.bkwd_level "a" =
        some (dgetD ([("y", 0)] : Dict ℕ) "y" 0 + 1)) :=
  ⟨(C10_duplicate_inputs ⟨[("a", 1)], [("a", 1)], [("y", 0)], [], [("y", 0)]⟩ "y" "a" "g" 0
      (by decide) (by decide)).1 "AND" (by decide),
   (C10_duplicate_inputs ⟨[("a", 1)], [("a", 1)], [("y", 0)], [], [("y", 0)]⟩ "y" "a" "g" 0
      (by decide) (by decide)).2 "XOR" (by decide)⟩

/-! ### Frame lemmas for the backward sweep, and claim C3 -/

theorem backObsIn_frames {g : Gate} {s s' : St} {j : Net}
    (h : backObsIn g s j = some s') :
    s'.CC0 = s.CC0 ∧ s'.CC1 = s.CC1 ∧ s'.fwd_level = s.fwd_level ∧
    (∀ n, n ≠ j → dlookup s'.CO n = dlookup s.CO n ∧
      dlookup s'.bkwd_level n = dlookup s.bkwd_level n) ∧
    (∀ n, dmem s.CO n = true → dmem s'.CO n = true) := by
  have hne : ∀ (m : Dict ℤ) (v : ℤ) (n : Net), n ≠ j →
      dlookup (dinsert m j v) n = dlookup m n := by
    intro m v n hn
    rw [dlookup_dinsert, if_neg (fun he => hn he.symm)]
  have hneN : ∀ (m : Dict ℕ) (v : ℕ) (n : Net), n ≠ j →
      dlookup (dinsert m j v) n = dlookup m n := by
    intro m v n hn
    rw [dlookup_dinsert, if_neg (fun he => hn he.symm)]
  by_cases h1 : g.gtype = "AND" ∨ g.gtype = "NAND"
  · rw [backObsIn_ANDNAND g s j h1] at h
    rcases hc : dlookup s.CO g.out with _ | co
    · rw [hc] at h; exact Option.noConfusion h
    simp only [hc] at h
    rcases hg : getAll s.CC1 (g.ins.filter (fun i => i != j)) with _ | c1s
    · rw [hg] at h; exact Option.noConfusion h
    simp only [hg, Option.some.injEq] at h
    subst h
    exact ⟨rfl, rfl, rfl, fun n hn => ⟨hne _ _ _ hn, hneN _ _ _ hn⟩,
      fun n hn => dmem_dinsert_of _ _ _ _ hn⟩
  by_cases h2 : g.gtype = "OR" ∨ g.gtype = "NOR"
  · rw [backObsIn_ORNOR g s j h2] at h
    rcases hc : dlookup s.CO g.out with _ | co
    · rw [hc] at h; exact Option.noConfusion h
    simp only [hc] at h
    rcases hg : getAll s.CC0 (g.ins.filter (fun i => i != j)) with _ | c0s
    · rw [hg] at h; exact Option.noConfusion h
    simp only [hg, Option.some.injEq] at h
    subst h
    exact ⟨rfl, rfl, rfl, fun n hn => ⟨hne _ _ _ hn, hneN _ _ _ hn⟩,
      fun n hn => dmem_dinsert_of _ _ _ _ hn⟩
  by_cases h3 : g.gtype = "XOR" ∨ g.gtype = "XNOR"
  · rw [backObsIn_XORXNOR g s j h3] at h
    rcases hf : g.ins.filter (fun i => i != j) with _ | ⟨k, _ | ⟨k2, t2⟩⟩
    · rw [hf] at h
      obtain rfl := (Option.some.inj h).symm
      exact ⟨rfl, rfl, rfl, fun n hn => ⟨rfl, hneN _ _ _ hn⟩, fun n hn => hn⟩
    · rw [hf] at h
      dsimp only at h
      rcases hc : dlookup s.CO g.out with _ | co
      · rw [hc] at h; exact Option.noConfusion h
      simp only [hc] at h
      rcases hk0 : dlookup s.CC0 k with _ | k0
      · rw [hk0] at h; exact Option.noConfusion h
      simp only [hk0] at h
      rcases hk1 : dlookup s.CC1 k with _ | k1
      · rw [hk1] at h; exact Option.noConfusion h
      simp only [hk1, Option.some.injEq] at h
      subst h
      exact ⟨rfl, rfl, rfl, fun n hn => ⟨hne _ _ _ hn, hneN _ _ _ hn⟩,
        fun n hn => dmem_dinsert_of _ _ _ _ hn⟩
    · rw [hf] at h
      obtain rfl := (Option.some.inj h).symm
      exact ⟨rfl, rfl, rfl, fun n hn => ⟨rfl, hneN _ _ _ hn⟩, fun n hn => hn⟩
  obtain ⟨hA, hN⟩ := not_or.mp h1
  obtain ⟨hO, hNO⟩ := not_or.mp h2
  obtain ⟨hX, hXN⟩ := not_or.mp h3
  rw [backObsIn_other g s j hA hN hO hNO hX hXN] at h
  rcases hc : dlookup s.CO g.out with _ | co
  · rw [hc] at h; exact Option.noConfusion h
  simp only [hc, Option.some.injEq] at h
  subst h
  exact ⟨rfl, rfl, rfl, fun n hn => ⟨hne _ _ _ hn, hneN _ _ _ hn⟩,
    fun n hn => dmem_dinsert_of _ _ _ _ hn⟩

theorem backwardStep_CCframes {st st' : St} {g : Gate}
    (h : backwardStep st g = some st') :
    st'.CC0 = st.CC0 ∧ st'.CC1 = st.CC1 ∧ st'.fwd_level = st.fwd_level := by
  unfold backwardStep at h
  by_cases hg : dmem st.CO g.out
  · rw [if_pos hg] at h
    exact optFold_inv
      (fun s => s.CC0 = st.CC0 ∧ s.CC1 = st.CC1 ∧ s.fwd_level = st.fwd_level)
      (backObsIn g) g.ins
      (fun s j s' _ hP hs => by
        obtain ⟨h0, h1, h2, -, -⟩ := backObsIn_frames hs
        exact ⟨h0.trans hP.1, h1.trans hP.2.1, h2.trans hP.2.2⟩)
      st st' ⟨rfl, rfl, rfl⟩ h
  · rw [if_neg hg] at h
    obtain rfl := Option.some.inj h
    exact ⟨rfl, rfl, rfl⟩

theorem backwardStep_CO_ne {st st' : St} {g : Gate} {n : Net}
    (h : backwardStep st g = some st') (hn : n ∉ g.ins) :
    dlookup st'.CO n = dlookup st.CO n := by
  unfold backwardStep at h
  by_cases hg : dmem st.CO g.out
  · rw [if_pos hg] at h
    exact optFold_inv (fun s => dlookup s.CO n = dlookup st.CO n)
      (backObsIn g) g.ins
      (fun s j s' hj hP hs => by
        obtain ⟨-, -, -, hloc, -⟩ := backObsIn_frames hs
        exact ((hloc n (fun he => hn (he ▸ hj))).1).trans hP)
      st st' rfl h
  · rw [if_neg hg] at h
    obtain rfl := Option.some.inj h
    rfl

theorem seedInputs_keep (st : St) (l : List Net) (n : Net)
    (h : dlookup st.CC0 n = some 1 ∧ dlookup st.CC1 n = some 1 ∧
      dlookup st.fwd_level n = some 0) :
    dlookup (seedInputs st l).CC0 n = some 1 ∧
      dlookup (seedInputs st l).CC1 n = some 1 ∧
      dlookup (seedInputs st l).fwd_level n = some 0 := by
  induction l generalizing st with
  | nil => exact h
  | cons i t ih =>
    rw [seedInputs_cons]
    refine ih _ ?_
    by_cases hin : i = n
    · subst hin
      simp [dlookup_dinsert]
    · simpa [dlookup_dinsert, hin] using h

theorem seedInputs_sets (st : St) (l : List Net) (n : Net) (hn : n ∈ l) :
    dlookup (seedInputs st l).CC0 n = some 1 ∧
      dlookup (seedInputs st l).CC1 n = some 1 ∧
      dlookup (seedInputs st l).fwd_level n = some 0 := by
  induction l generalizing st with
  | nil => cases hn
  | cons i t ih =>
    rw [seedInputs_cons]
    rcases List.mem_cons.mp hn with rfl | hnt
    · exact seedInputs_keep _ t n (by simp [dlookup_dinsert])
    · exact ih _ hnt

theorem seedSeq_keep (st : St) (l : List SeqCell) (n : Net)
    (h : dlookup st.CC0 n = some 1 ∧ dlookup st.CC1 n = some 1 ∧
      dlookup st.fwd_level n = some 0) :
    dlookup (seedSeq st l).CC0 n = some 1 ∧
      dlookup (seedSeq st l).CC1 n = some 1 ∧
      dlookup (seedSeq st l).fwd_level n = some 0 := by
  induction l generalizing st with
  | nil => exact h
  | cons c t ih =>
    rw [seedSeq_cons]
    refine ih _ ?_
    by_cases hin : c.output = n
    · rw [hin]
      simp [dlookup_dinsert]
    · simpa [dlookup_dinsert, hin] using h

theorem seedSeq_sets (st : St) (l : List SeqCell) (n : Net)
    (hn : ∃ c ∈ l, c.output = n) :
    dlookup (seedSeq st l).CC0 n = some 1 ∧
      dlookup (seedSeq st l).CC1 n = some 1 ∧
      dlookup (seedSeq st l).fwd_level n = some 0 := by
  induction l generalizing st with
  | nil => obtain ⟨c, hc, -⟩ := hn; cases hc
  | cons c t ih =>
    rw [seedSeq_cons]
    obtain ⟨c', hc', he⟩ := hn
    rcases List.mem_cons.mp hc' with rfl | hct
    · subst he
      exact seedSeq_keep _ t _ (by simp [dlookup_dinsert])
    · exact ih _ ⟨c', hct, he⟩

theorem forwardStep_keep_ne {st st' : St} {g : Gate} {n : Net} (hne : g.out ≠ n)
    (h : forwardStep st g = some st')
    (hP : dlookup st.CC0 n = some 1 ∧ dlookup st.CC1 n = some 1 ∧
      dlookup st.fwd_level n = some 0) :
    dlookup st'.CC0 n = some 1 ∧ dlookup st'.CC1 n = some 1 ∧
      dlookup st'.fwd_level n = some 0 := by
  obtain ⟨-, -, hsh⟩ := forwardStep_shape h
  rcases hsh with rfl | ⟨⟨lv, hfw⟩, hcc⟩
  · exact hP
  have hfl : dlookup st'.fwd_level n = some 0 := by
    rw [hfw, dlookup_dinsert, if_neg hne]
    exact hP.2.2
  rcases hcc with ⟨h0, h1⟩ | ⟨v0, v1, h0, h1⟩
  · exact ⟨h0 ▸ hP.1, h1 ▸ hP.2.1, hfl⟩
  · refine ⟨?_, ?_, hfl⟩
    · rw [h0, dlookup_dinsert, if_neg hne]
      exact hP.1
    · rw [h1, dlookup_dinsert, if_neg hne]
      exact hP.2.1

/-- C3: every net that is a primary input or sequential-cell output Q has
CC0 = CC1 = 1.0 and FwdLev = 0 in the returned maps, provided no gate's
output net equals it (gates in topological order with unique outputs never
overwrite a seed). -/
theorem C3_seeding (inputs outputs : List Net) (gates : List Gate)
    (seq_cells : List SeqCell) (n : Net) (r : Result)
    (hn : n ∈ inputs ∨ ∃ c ∈ seq_cells, c.output = n)
    (hout : ∀ g ∈ gates, g.out ≠ n)
    (hr : scoap inputs outputs gates seq_cells = some r) :
    dlookup r.CC0 n = some 1 ∧ dlookup r.CC1 n = some 1 ∧
      dlookup r.fwd_level n = some 0 := by
  unfold scoap at hr
  rcases hfw : forwardPhase inputs seq_cells gates with _ | st3
  · rw [hfw] at hr; exact Option.noConfusion hr
  rw [hfw] at hr
  dsimp only at hr
  rcases hbk : optFold backwardStep (seedOutputs st3 outputs) gates.reverse with _ | st5
  · rw [hbk] at hr; exact Option.noConfusion hr
  rw [hbk] at hr
  dsimp only at hr
  obtain rfl := (Option.some.inj hr).symm
  have hseed : dlookup (seedSeq (seedInputs initSt inputs) seq_cells).CC0 n = some 1 ∧
      dlookup (seedSeq (seedInputs initSt inputs) seq_cells).CC1 n = some 1 ∧
      dlookup (seedSeq (seedInputs initSt inputs) seq_cells).fwd_level n = some 0 := by
    rcases hn with hmem | hcell
    · exact seedSeq_keep _ _ _ (seedInputs_sets initSt inputs n hmem)
    · exact seedSeq_sets _ _ _ hcell
  have h3 : dlookup st3.CC0 n = some 1 ∧ dlookup st3.CC1 n = some 1 ∧
      dlookup st3.fwd_level n = some 0 :=
    optFold_inv
      (fun s => dlookup s.CC0 n = some 1 ∧ dlookup s.CC1 n = some 1 ∧
        dlookup s.fwd_level n = some 0)
      forwardStep gates
      (fun s g s' hg hP hs => forwardStep_keep_ne (hout g hg) hs hP)
      _ _ hseed hfw
  obtain ⟨hc0, hc1, hfl⟩ := seedOutputs_CC st3 outputs
  have h4 : dlookup (seedOutputs st3 outputs).CC0 n = some 1 ∧
      dlookup (seedOutputs st3 outputs).CC1 n = some 1 ∧
      dlookup (seedOutputs st3 outputs).fwd_level n = some 0 := by
    rw [hc0, hc1, hfl]
    exact h3
  have h5 : dlookup st5.CC0 n = some 1 ∧ dlookup st5.CC1 n = some 1 ∧
      dlookup st5.fwd_level n = some 0 :=
    optFold_inv
      (fun s => dlookup s.CC0 n = some 1 ∧ dlookup s.CC1 n = some 1 ∧
        dlookup s.fwd_level n = some 0)
      backwardStep gates.reverse
      (fun s g s' _ hP hs => by
        obtain ⟨h0, h1, h2⟩ := backwardStep_CCframes hs
        exact ⟨h0 ▸ hP.1, h1 ▸ hP.2.1, h2 ▸ hP.2.2⟩)
      _ _ h4 hbk
  exact h5

/-- Witness for C3_seeding: a single primary input with no gates. -/
theorem C3_seeding_witness :
    dlookup ([("a", 1)] : Dict ℤ) "a" = some 1 ∧
      dlookup ([("a", 1)] : Dict ℤ) "a" = some 1 ∧
      dlookup ([("a", 0)] : Dict ℕ) "a" = some 0 :=
  C3_seeding ["a"] [] [] [] "a"
    ⟨[("a", 1)], [("a", 1)], [], [("a", XReal.inf)], [("a", XReal.inf)],
      [("a", XReal.inf)], [("a", 0)], []⟩
    (Or.inl (List.mem_singleton_self "a")) (by simp) (by decide)

/-! ### Claim C5 -/

/-- C5: the backward sweep processes gates in exact reverse order
(`gates.reverse` fed to the fold), and a net's final CO entry is the one
written by whichever consuming gate is processed last in that order: the
write of gate g overwrites anything the earlier-processed gates L1 wrote,
no later gate in L2 touches j, and the written value is the gate's own
contribution CO(out) + CC1(other) + 1, independent of the previous CO(j). -/
theorem C5_last_writer (st st1 st2 st3 : St) (L1 L2 : List Gate) (g : Gate) (j : Net)
    (h1 : optFold backwardStep st L1 = some st1)
    (hg : backwardStep st1 g = some st2)
    (h2 : optFold backwardStep st2 L2 = some st3)
    (hL2 : ∀ g' ∈ L2, j ∉ g'.ins) :
    optFold backwardStep st (L1 ++ g :: L2) = some st3 ∧
    dlookup st3.CO j = dlookup st2.CO j ∧
    (∀ k co c1, g.gtype = "AND" → g.ins = [j, k] → j ≠ k → g.out ≠ j →
      dlookup st1.CO g.out = some co → dlookup st1.CC1 k = some c1 →
      dlookup st2.CO j = some (co + c1 + 1)) := by
  refine ⟨?_, ?_, ?_⟩
  · rw [optFold_append]
    simp only [h1, optFold, hg]
    exact h2
  · exact optFold_inv (fun s => dlookup s.CO j = dlookup st2.CO j)
      backwardStep L2
      (fun s g' s' hg' hP hs => (backwardStep_CO_ne hs (hL2 g' hg')).trans hP)
      _ _ rfl h2
  · intro k co c1 hgt hins hjk houtj hco hc1
    unfold backwardStep at hg
    rw [if_pos (by simp [dmem, hco])] at hg
    rw [hins] at hg
    have hfil : List.filter (fun i => i != j) [j, k] = [k] := by
      simp [Ne.symm hjk]
    have hga : getAll st1.CC1 [k] = some [c1] := by
      simp [getAll, hc1]
    have hstep1 : backObsIn g st1 j =
        some { st1 with
               CO := dinsert st1.CO j (co + sumList [c1] + 1)
               bkwd_level := dinsert st1.bkwd_level j (dgetD st1.bkwd_level g.out 0 + 1) } := by
      rw [backObsIn_ANDNAND g st1 j (Or.inl hgt)]
      rw [hins]
      simp only [hco, hfil, hga]
    simp only [optFold, hstep1] at hg
    rcases hs2 : backObsIn g
        { st1 with
          CO := dinsert st1.CO j (co + sumList [c1] + 1)
          bkwd_level := dinsert st1.bkwd_level j (dgetD st1.bkwd_level g.out 0 + 1) } k
      with _ | s2
    · rw [hs2] at hg; exact Option.noConfusion hg
    rw [hs2] at hg
    simp only [optFold, Option.some.injEq] at hg
    subst hg
    obtain ⟨-, -, -, hloc, -⟩ := backObsIn_frames hs2
    rw [(hloc j hjk).1]
    dsimp only
    rw [dlookup_dinsert, if_pos rfl]
    simp [sumList]

/-- Witness for C5_last_writer: net a feeds AND(z; a, d) and AND(y; a, b);
in the reverse processing order AND(z; a, d) writes CO[a] = 2 first and
AND(y; a, b) overwrites it with CO[a] = 0 + CC1[b] + 1 = 4 (not the min). -/
theorem C5_last_writer_witness :
    optFold backwardStep
        ⟨[("a", 1), ("b", 1), ("d", 1)], [("a", 1), ("b", 3), ("d", 1)],
          [("y", 0), ("z", 0)], [], [("y", 0), ("z", 0)]⟩
        [⟨"AND", "z", ["a", "d"], "g2"⟩, ⟨"AND", "y", ["a", "b"], "g1"⟩] =
      some
        ⟨[("a", 1), ("b", 1), ("d", 1)], [("a", 1), ("b", 3), ("d", 1)],
          [("y", 0), ("z", 0), ("a", 4), ("d", 2), ("b", 2)], [],
          [("y", 0), ("z", 0), ("a", 1), ("d", 1), ("b", 1)]⟩ ∧
    dlookup ([("y", 0), ("z", 0), ("a", 4), ("d", 2), ("b", 2)] : Dict ℤ) "a" =
      some ((0 : ℤ) + 3 + 1) := by
  have h := C5_last_writer
    ⟨[("a", 1), ("b", 1), ("d", 1)], [("a", 1), ("b", 3), ("d", 1)],
      [("y", 0), ("z", 0)], [], [("y", 0), ("z", 0)]⟩
    ⟨[("a", 1), ("b", 1), ("d", 1)], [("a", 1), ("b", 3), ("d", 1)],
      [("y", 0), ("z", 0), ("a", 2), ("d", 2)], [],
      [("y", 0), ("z", 0), ("a", 1), ("d", 1)]⟩
    ⟨[("a", 1), ("b", 1), ("d", 1)], [("a", 1), ("b", 3), ("d", 1)],
      [("y", 0), ("z", 0), ("a", 4), ("d", 2), ("b", 2)], [],
      [("y", 0), ("z", 0), ("a", 1), ("d", 1), ("b", 1)]⟩
    ⟨[("a", 1), ("b", 1), ("d", 1)], [("a", 1), ("b", 3), ("d", 1)],
      [("y", 0), ("z", 0), ("a", 4), ("d", 2), ("b", 2)], [],
      [("y", 0), ("z", 0), ("a", 1), ("d", 1), ("b", 1)]⟩
    [⟨"AND", "z", ["a", "d"], "g2"⟩] [] ⟨"AND", "y", ["a", "b"], "g1"⟩ "a"
    (by decide) (by decide) (by decide) (by simp)
  exact ⟨h.1, h.2.2 "b" 0 3 rfl rfl (by decide) (by decide) (by decide) (by decide)⟩

/-! ### Step 3 derivation and claim C7 -/

theorem step3_fold (st : St) (ks : List Net) (n : Net) :
    ∀ acc : Dict XReal × Dict XReal × Dict XReal,
      dlookup (List.foldl (fun (acc : Dict XReal × Dict XReal × Dict XReal) k =>
          (dinsert acc.1 k (xadd (toX (dlookup st.CC0 k)) (toX (dlookup st.CO k))),
           dinsert acc.2.1 k (xadd (toX (dlookup st.CC1 k)) (toX (dlookup st.CO k))),
           dinsert acc.2.2 k (toX (dlookup st.CO k)))) acc ks).1 n =
        (if n ∈ ks then some (xadd (toX (dlookup st.CC0 n)) (toX (dlookup st.CO n)))
         else dlookup acc.1 n) ∧
      dlookup (List.foldl (fun (acc : Dict XReal × Dict XReal × Dict XReal) k =>
          (dinsert acc.1 k (xadd (toX (dlookup st.CC0 k)) (toX (dlookup st.CO k))),
           dinsert acc.2.1 k (xadd (toX (dlookup st.CC1 k)) (toX (dlookup st.CO k))),
           dinsert acc.2.2 k (toX (dlookup st.CO k)))) acc ks).2.1 n =
        (if n ∈ ks then some (xadd (toX (dlookup st.CC1 n)) (toX (dlookup st.CO n)))
         else dlookup acc.2.1 n) ∧
      dlookup (List.foldl (fun (acc : Dict XReal × Dict XReal × Dict XReal) k =>
          (dinsert acc.1 k (xadd (toX (dlookup st.CC0 k)) (toX (dlookup st.CO k))),
           dinsert acc.2.1 k (xadd (toX (dlookup st.CC1 k)) (toX (dlookup st.CO k))),
           dinsert acc.2.2 k (toX (dlookup st.CO k)))) acc ks).2.2 n =
        (if n ∈ ks then some (toX (dlookup st.CO n))
         else dlookup acc.2.2 n) := by
  induction ks with
  | nil => intro acc; simp
  | cons k t ih =>
    intro acc
    simp only [List.foldl_cons]
    obtain ⟨i1, i2, i3⟩ := ih
      (dinsert acc.1 k (xadd (toX (dlookup st.CC0 k)) (toX (dlookup st.CO k))),
       dinsert acc.2.1 k (xadd (toX (dlookup st.CC1 k)) (toX (dlookup st.CO k))),
       dinsert acc.2.2 k (toX (dlookup st.CO k)))
    refine ⟨?_, ?_, ?_⟩
    · rw [i1]
      by_cases hnt : n ∈ t
      · simp [hnt]
      · by_cases hkn : k = n
        · subst hkn
          simp [hnt, dlookup_dinsert]
        · simp only [hnt, if_false, List.mem_cons]
          rw [dlookup_dinsert, if_neg hkn]
          simp only [List.mem_cons, hnt, or_false]
          rw [if_neg (fun he => hkn he.symm)]
    · rw [i2]
      by_cases hnt : n ∈ t
      · simp [hnt]
      · by_cases hkn : k = n
        · subst hkn
          simp [hnt, dlookup_dinsert]
        · simp only [hnt, if_false, List.mem_cons]
          rw [dlookup_dinsert, if_neg hkn]
          simp only [List.mem_cons, hnt, or_false]
          rw [if_neg (fun he => hkn he.symm)]
    · rw [i3]
      by_cases hnt : n ∈ t
      · simp [hnt]
      · by_cases hkn : k = n
        · subst hkn
          simp [hnt, dlookup_dinsert]
        · simp only [hnt, if_false, List.mem_cons]
          rw [dlookup_dinsert, if_neg hkn]
          simp only [List.mem_cons, hnt, or_false]
          rw [if_neg (fun he => hkn he.symm)]

theorem step3_lookup (st : St) (n : Net) :
    (n ∈ dkeys st.CC0 ++ dkeys st.CO →
      dlookup (step3 st).SC0 n =
          some (xadd (toX (dlookup st.CC0 n)) (toX (dlookup st.CO n))) ∧
        dlookup (step3 st).SC1 n =
          some (xadd (toX (dlookup st.CC1 n)) (toX (dlookup st.CO n))) ∧
        dlookup (step3 st).SO n = some (toX (dlookup st.CO n))) ∧
    (n ∉ dkeys st.CC0 ++ dkeys st.CO →
      dlookup (step3 st).SC0 n = none ∧ dlookup (step3 st).SC1 n = none ∧
        dlookup (step3 st).SO n = none) := by
  obtain ⟨f1, f2, f3⟩ := step3_fold st (dkeys st.CC0 ++ dkeys st.CO) n ([], [], [])
  constructor
  · intro hmem
    refine ⟨?_, ?_, ?_⟩
    · show dlookup (List.foldl _ ([], [], []) (dkeys st.CC0 ++ dkeys st.CO)).1 n = _
      rw [f1, if_pos hmem]
    · show dlookup (List.foldl _ ([], [], []) (dkeys st.CC0 ++ dkeys st.CO)).2.1 n = _
      rw [f2, if_pos hmem]
    · show dlookup (List.foldl _ ([], [], []) (dkeys st.CC0 ++ dkeys st.CO)).2.2 n = _
      rw [f3, if_pos hmem]
  · intro hmem
    refine ⟨?_, ?_, ?_⟩
    · show dlookup (List.foldl _ ([], [], []) (dkeys st.CC0 ++ dkeys st.CO)).1 n = _
      rw [f1, if_neg hmem]
      rfl
    · show dlookup (List.foldl _ ([], [], []) (dkeys st.CC0 ++ dkeys st.CO)).2.1 n = _
      rw [f2, if_neg hmem]
      rfl
    · show dlookup (List.foldl _ ([], [], []) (dkeys st.CC0 ++ dkeys st.CO)).2.2 n = _
      rw [f3, if_neg hmem]
      rfl

/-- C7: after the two sweeps, for every net n in the union of the domains
of CC0 and CO the returned maps satisfy SC0 = CC0 + CO, SC1 = CC1 + CO and
SO = CO, an absent operand counting as +infinity (finite + infinity =
infinity); nets outside that union get no SC0/SC1/SO entry. -/
theorem C7_derivation (inputs outputs : List Net) (gates : List Gate)
    (seq_cells : List SeqCell) (r : Result) (n : Net)
    (hr : scoap inputs outputs gates seq_cells = some r) :
    ((dmem r.CC0 n = true ∨ dmem r.CO n = true) →
      dlookup r.SC0 n = some (xadd (toX (dlookup r.CC0 n)) (toX (dlookup r.CO n))) ∧
      dlookup r.SC1 n = some (xadd (toX (dlookup r.CC1 n)) (toX (dlookup r.CO n))) ∧
      dlookup r.SO n = some (toX (dlookup r.CO n))) ∧
    (dmem r.CC0 n = false → dmem r.CO n = false →
      dlookup r.SC0 n = none ∧ dlookup r.SC1 n = none ∧ dlookup r.SO n = none) := by
  unfold scoap at hr
  rcases hfw : forwardPhase inputs seq_cells gates with _ | st3
  · rw [hfw] at hr; exact Option.noConfusion hr
  rw [hfw] at hr
  dsimp only at hr
  rcases hbk : optFold backwardStep (seedOutputs st3 outputs) gates.reverse with _ | st5
  · rw [hbk] at hr; exact Option.noConfusion hr
  rw [hbk] at hr
  dsimp only at hr
  obtain rfl := (Option.some.inj hr).symm
  obtain ⟨hin, hout⟩ := step3_lookup st5 n
  constructor
  · intro hmem
    apply hin
    rw [List.mem_append, mem_dkeys, mem_dkeys]
    exact hmem
  · intro h0 hco
    apply hout
    rw [List.mem_append, mem_dkeys, mem_dkeys]
    rintro (h | h)
    · have h0' : dmem st5.CC0 n = false := h0
      simp [h] at h0'
    · have hco' : dmem st5.CO n = false := hco
      simp [h] at hco'

/-- Witness for C7_derivation: the netlist with the single net a as both
input and output; SC0[a] = 1 + 0 = 1, SC1[a] = 1, SO[a] = 0. -/
theorem C7_derivation_witness :
    dlookup ([("a", XReal.fin 1)] : Dict XReal) "a" = some (XReal.fin 1) ∧
    dlookup ([("a", XReal.fin 1)] : Dict XReal) "a" = some (XReal.fin 1) ∧
    dlookup ([("a", XReal.fin 0)] : Dict XReal) "a" = some (XReal.fin 0) :=
  (C7_derivation ["a"] ["a"] [] []
    ⟨[("a", 1)], [("a", 1)], [("a", 0)], [("a", XReal.fin 1)], [("a", XReal.fin 1)],
      [("a", XReal.fin 0)], [("a", 0)], [("a", 0)]⟩ "a" (by decide)).1 (Or.inl (by decide))

/-! ### Claim C8: controllability entries are at least 1 -/

theorem DGe1_dinsert {m : Dict ℤ} {v : ℤ} (hm : DGe1 m) (hv : 1 ≤ v) (k : Net) :
    DGe1 (dinsert m k v) := by
  intro n q hq
  rw [dlookup_dinsert] at hq
  by_cases h : k = n
  · rw [if_pos h] at hq
    exact (Option.some.inj hq) ▸ hv
  · rw [if_neg h] at hq
    exact hm n q hq

theorem getAll_ge1 {m : Dict ℤ} {l : List Net} {qs : List ℤ} (hm : DGe1 m)
    (h : getAll m l = some qs) : ∀ q ∈ qs, 1 ≤ q := by
  intro q hq
  obtain ⟨i, -, hlk⟩ := getAll_mem m l qs h q hq
  exact hm i q hlk

theorem minList_ge1 {l : List ℤ} {v : ℤ} (hl : ∀ q ∈ l, 1 ≤ q)
    (h : minList l = some v) : 1 ≤ v :=
  hl v (minList_mem l v h)

theorem sumList_ge0 {l : List ℤ} (hl : ∀ q ∈ l, 1 ≤ q) : 0 ≤ sumList l :=
  sumList_nonneg l (fun q hq => le_trans (by norm_num) (hl q hq))

theorem fwdCC_ge1 {st st1 : St} {g : Gate}
    (h0 : DGe1 st.CC0) (h1 : DGe1 st.CC1) (h : fwdCC st g = some st1) :
    DGe1 st1.CC0 ∧ DGe1 st1.CC1 := by
  obtain ⟨gt, out, ins, nm⟩ := g
  by_cases hA : gt = "AND"
  · subst hA
    rw [fwdCC_AND st _ rfl] at h
    dsimp only at h
    rcases hc0 : getAll st.CC0 ins with _ | c0s
    · rw [hc0] at h; exact Option.noConfusion h
    simp only [hc0] at h
    rcases hm : minList c0s with _ | m
    · rw [hm] at h; exact Option.noConfusion h
    simp only [hm] at h
    rcases hc1 : getAll st.CC1 ins with _ | c1s
    · rw [hc1] at h; exact Option.noConfusion h
    simp only [hc1, Option.some.injEq] at h
    subst h
    have hmge := minList_ge1 (getAll_ge1 h0 hc0) hm
    have hsge := sumList_ge0 (getAll_ge1 h1 hc1)
    exact ⟨DGe1_dinsert h0 (by linarith) out, DGe1_dinsert h1 (by linarith) out⟩
  by_cases hN : gt = "NAND"
  · subst hN
    rw [fwdCC_NAND st _ rfl] at h
    dsimp only at h
    rcases hc1 : getAll st.CC1 ins with _ | c1s
    · rw [hc1] at h; exact Option.noConfusion h
    simp only [hc1] at h
    rcases hc0 : getAll (dinsert st.CC0 out (sumList c1s + 1)) ins with _ | c0s
    · rw [hc0] at h; exact Option.noConfusion h
    simp only [hc0] at h
    rcases hm : minList c0s with _ | m
    · rw [hm] at h; exact Option.noConfusion h
    simp only [hm, Option.some.injEq] at h
    subst h
    have hsge := sumList_ge0 (getAll_ge1 h1 hc1)
    have h0' : DGe1 (dinsert st.CC0 out (sumList c1s + 1)) :=
      DGe1_dinsert h0 (by linarith) out
    have hmge := minList_ge1 (getAll_ge1 h0' hc0) hm
    exact ⟨h0', DGe1_dinsert h1 (by linarith) out⟩
  by_cases hO : gt = "OR"
  · subst hO
    rw [fwdCC_OR st _ rfl] at h
    dsimp only at h
    rcases hc0 : getAll st.CC0 ins with _ | c0s
    · rw [hc0] at h; exact Option.noConfusion h
    simp only [hc0] at h
    rcases hc1 : getAll st.CC1 ins with _ | c1s
    · rw [hc1] at h; exact Option.noConfusion h
    simp only [hc1] at h
    rcases hm : minList c1s with _ | m
    · rw [hm] at h; exact Option.noConfusion h
    simp only [hm, Option.some.injEq] at h
    subst h
    have hsge := sumList_ge0 (getAll_ge1 h0 hc0)
    have hmge := minList_ge1 (getAll_ge1 h1 hc1) hm
    exact ⟨DGe1_dinsert h0 (by linarith) out, DGe1_dinsert h1 (by linarith) out⟩
  by_cases hNO : gt = "NOR"
  · subst hNO
    rw [fwdCC_NOR st _ rfl] at h
    dsimp only at h
    rcases hc1 : getAll st.CC1 ins with _ | c1s
    · rw [hc1] at h; exact Option.noConfusion h
    simp only [hc1] at h
    rcases hm : minList c1s with _ | m
    · rw [hm] at h; exact Option.noConfusion h
    simp only [hm] at h
    rcases hc0 : getAll (dinsert st.CC0 out (m + 1)) ins with _ | c0s
    · rw [hc0] at h; exact Option.noConfusion h
    simp only [hc0, Option.some.injEq] at h
    subst h
    have hmge := minList_ge1 (getAll_ge1 h1 hc1) hm
    have h0' : DGe1 (dinsert st.CC0 out (m + 1)) :=
      DGe1_dinsert h0 (by linarith) out
    have hsge := sumList_ge0 (getAll_ge1 h0' hc0)
    exact ⟨h0', DGe1_dinsert h1 (by linarith) out⟩
  by_cases hNT : gt = "NOT"
  · subst hNT
    rw [fwdCC_NOT st _ rfl] at h
    dsimp only at h
    rcases ins with _ | ⟨i0, ins'⟩
    · exact Option.noConfusion h
    dsimp only at h
    rcases hv1 : dlookup st.CC1 i0 with _ | v1
    · rw [hv1] at h; exact Option.noConfusion h
    simp only [hv1] at h
    rcases hv0 : dlookup (dinsert st.CC0 out (v1 + 1)) i0 with _ | v0
    · rw [hv0] at h; exact Option.noConfusion h
    simp only [hv0, Option.some.injEq] at h
    subst h
    have hv1ge := h1 i0 v1 hv1
    have h0' : DGe1 (dinsert st.CC0 out (v1 + 1)) :=
      DGe1_dinsert h0 (by linarith) out
    have hv0ge := h0' i0 v0 hv0
    exact ⟨h0', DGe1_dinsert h1 (by linarith) out⟩
  by_cases hB : gt = "BUF"
  · subst hB
    rw [fwdCC_BUF st _ rfl] at h
    dsimp only at h
    rcases ins with _ | ⟨i0, ins'⟩
    · exact Option.noConfusion h
    dsimp only at h
    rcases hv0 : dlookup st.CC0 i0 with _ | v0
    · rw [hv0] at h; exact Option.noConfusion h
    simp only [hv0] at h
    rcases hv1 : dlookup st.CC1 i0 with _ | v1
    · rw [hv1] at h; exact Option.noConfusion h
    simp only [hv1, Option.some.injEq] at h
    subst h
    have hv0ge := h0 i0 v0 hv0
    have hv1ge := h1 i0 v1 hv1
    exact ⟨DGe1_dinsert h0 (by linarith) out, DGe1_dinsert h1 (by linarith) out⟩
  by_cases hX : gt = "XOR"
  · subst hX
    rw [fwdCC_XOR st _ rfl] at h
    dsimp only at h
    rcases ins with _ | ⟨a, _ | ⟨b, _ | ⟨c, t⟩⟩⟩
    · obtain rfl := Option.some.inj h
      exact ⟨h0, h1⟩
    · obtain rfl := Option.some.inj h
      exact ⟨h0, h1⟩
    · dsimp only at h
      rcases ha0 : dlookup st.CC0 a with _ | a0
      · rw [ha0] at h; exact Option.noConfusion h
      rcases hb0 : dlookup st.CC0 b with _ | b0
      · rw [ha0, hb0] at h; exact Option.noConfusion h
      rcases ha1 : dlookup st.CC1 a with _ | a1
      · rw [ha0, hb0, ha1] at h; exact Option.noConfusion h
      rcases hb1 : dlookup st.CC1 b with _ | b1
      · rw [ha0, hb0, ha1, hb1] at h; exact Option.noConfusion h
      simp only [ha0, hb0, ha1, hb1] at h
      have ha0ge := h0 a a0 ha0
      have hb0ge := h0 b b0 hb0
      have ha1ge := h1 a a1 ha1
      have hb1ge := h1 b b1 hb1
      have hv0 : (1 : ℤ) ≤ min (a0 + b0) (a1 + b1) + 1 := by
        have := le_min (by linarith : (0 : ℤ) ≤ a0 + b0) (by linarith : (0 : ℤ) ≤ a1 + b1)
        linarith
      have h0' : DGe1 (dinsert st.CC0 out (min (a0 + b0) (a1 + b1) + 1)) :=
        DGe1_dinsert h0 hv0 out
      rcases ha0' : dlookup (dinsert st.CC0 out (min (a0 + b0) (a1 + b1) + 1)) a with _ | a0'
      · rw [ha0'] at h; exact Option.noConfusion h
      rcases hb0' : dlookup (dinsert st.CC0 out (min (a0 + b0) (a1 + b1) + 1)) b with _ | b0'
      · rw [ha0', hb0'] at h; exact Option.noConfusion h
      simp only [ha0', hb0', Option.some.injEq] at h
      subst h
      have ha0'ge := h0' a a0' ha0'
      have hb0'ge := h0' b b0' hb0'
      have hv1 : (1 : ℤ) ≤ min (a0' + b1) (a1 + b0') + 1 := by
        have := le_min (by linarith : (0 : ℤ) ≤ a0' + b1) (by linarith : (0 : ℤ) ≤ a1 + b0')
        linarith
      exact ⟨h0', DGe1_dinsert h1 hv1 out⟩
    · obtain rfl := Option.some.inj h
      exact ⟨h0, h1⟩
  by_cases hXN : gt = "XNOR"
  · subst hXN
    rw [fwdCC_XNOR st _ rfl] at h
    dsimp only at h
    rcases ins with _ | ⟨a, _ | ⟨b, _ | ⟨c, t⟩⟩⟩
    · obtain rfl := Option.some.inj h
      exact ⟨h0, h1⟩
    · obtain rfl := Option.some.inj h
      exact ⟨h0, h1⟩
    · dsimp only at h
      rcases ha0 : dlookup st.CC0 a with _ | a0
      · rw [ha0] at h; exact Option.noConfusion h
      rcases hb0 : dlookup st.CC0 b with _ | b0
      · rw [ha0, hb0] at h; exact Option.noConfusion h
      rcases ha1 : dlookup st.CC1 a with _ | a1
      · rw [ha0, hb0, ha1] at h; exact Option.noConfusion h
      rcases hb1 : dlookup st.CC1 b with _ | b1
      · rw [ha0, hb0, ha1, hb1] at h; exact Option.noConfusion h
      simp only [ha0, hb0, ha1, hb1] at h
      have ha0ge := h0 a a0 ha0
      have hb0ge := h0 b b0 hb0
      have ha1ge := h1 a a1 ha1
      have hb1ge := h1 b b1 hb1
      have hvc1 : (1 : ℤ) ≤ min (a0 + b0) (a1 + b1) + 1 := by
        have := le_min (by linarith : (0 : ℤ) ≤ a0 + b0) (by linarith : (0 : ℤ) ≤ a1 + b1)
        linarith
      have h1' : DGe1 (dinsert st.CC1 out (min (a0 + b0) (a1 + b1) + 1)) :=
        DGe1_dinsert h1 hvc1 out
      rcases ha1' : dlookup (dinsert st.CC1 out (min (a0 + b0) (a1 + b1) + 1)) a with _ | a1'
      · rw [ha1'] at h; exact Option.noConfusion h
      rcases hb1' : dlookup (dinsert st.CC1 out (min (a0 + b0) (a1 + b1) + 1)) b with _ | b1'
      · rw [ha1', hb1'] at h; exact Option.noConfusion h
      simp only [ha1', hb1', Option.some.injEq] at h
      subst h
      have ha1'ge := h1' a a1' ha1'
      have hb1'ge := h1' b b1' hb1'
      have hvc0 : (1 : ℤ) ≤ min (a0 + b1') (a1' + b0) + 1 := by
        have := le_min (by linarith : (0 : ℤ) ≤ a0 + b1') (by linarith : (0 : ℤ) ≤ a1' + b0)
        linarith
      exact ⟨DGe1_dinsert h0 hvc0 out, h1'⟩
    · obtain rfl := Option.some.inj h
      exact ⟨h0, h1⟩
  rw [fwdCC_fallback st _ hA hN hO hNO hNT hB hX hXN] at h
  dsimp only at h
  obtain rfl := Option.some.inj h
  exact ⟨DGe1_dinsert h0 le_rfl out, DGe1_dinsert h1 le_rfl out⟩

theorem forwardStep_ge1 {st st' : St} {g : Gate}
    (h0 : DGe1 st.CC0) (h1 : DGe1 st.CC1) (h : forwardStep st g = some st') :
    DGe1 st'.CC0 ∧ DGe1 st'.CC1 := by
  unfold forwardStep at h
  by_cases hg : g.ins.all (fun i => dmem st.CC0 i)
  · rw [if_pos hg] at h
    rcases hf : fwdCC st g with _ | st1
    · rw [hf] at h; exact Option.noConfusion h
    simp only [hf] at h
    rcases hl : getAllN st1.fwd_level g.ins with _ | lvls
    · rw [hl] at h; exact Option.noConfusion h
    simp only [hl] at h
    rcases hm : maxListN lvls with _ | mx
    · rw [hm] at h; exact Option.noConfusion h
    simp only [hm, Option.some.injEq] at h
    subst h
    obtain ⟨g0, g1⟩ := fwdCC_ge1 h0 h1 hf
    exact ⟨g0, g1⟩
  · rw [if_neg hg] at h
    obtain rfl := Option.some.inj h
    exact ⟨h0, h1⟩

theorem DGe1_seedInputs (st : St) (l : List Net)
    (h0 : DGe1 st.CC0) (h1 : DGe1 st.CC1) :
    DGe1 (seedInputs st l).CC0 ∧ DGe1 (seedInputs st l).CC1 := by
  induction l generalizing st with
  | nil => exact ⟨h0, h1⟩
  | cons i t ih =>
    rw [seedInputs_cons]
    exact ih _ (DGe1_dinsert h0 le_rfl i) (DGe1_dinsert h1 le_rfl i)

theorem DGe1_seedSeq (st : St) (l : List SeqCell)
    (h0 : DGe1 st.CC0) (h1 : DGe1 st.CC1) :
    DGe1 (seedSeq st l).CC0 ∧ DGe1 (seedSeq st l).CC1 := by
  induction l generalizing st with
  | nil => exact ⟨h0, h1⟩
  | cons c t ih =>
    rw [seedSeq_cons]
    exact ih _ (DGe1_dinsert h0 le_rfl c.output) (DGe1_dinsert h1 le_rfl c.output)

/-- C8: in the returned maps every CC0 entry and every CC1 entry is at
least 1 (`DGe1 m` says every value stored in `m` is ≥ 1): seeds are 1.0
and every forward transfer adds 1 to a nonnegative combination of earlier
entries. -/
theorem C8_controllability_ge1 (inputs outputs : List Net) (gates : List Gate)
    (seq_cells : List SeqCell) (r : Result)
    (hr : scoap inputs outputs gates seq_cells = some r) :
    DGe1 r.CC0 ∧ DGe1 r.CC1 := by
  unfold scoap at hr
  rcases hfw : forwardPhase inputs seq_cells gates with _ | st3
  · rw [hfw] at hr; exact Option.noConfusion hr
  rw [hfw] at hr
  dsimp only at hr
  rcases hbk : optFold backwardStep (seedOutputs st3 outputs) gates.reverse with _ | st5
  · rw [hbk] at hr; exact Option.noConfusion hr
  rw [hbk] at hr
  dsimp only at hr
  obtain rfl := (Option.some.inj hr).symm
  have hinit : DGe1 initSt.CC0 ∧ DGe1 initSt.CC1 := by
    constructor <;> intro n q hq <;> cases hq
  obtain ⟨hs0, hs1⟩ := DGe1_seedInputs initSt inputs hinit.1 hinit.2
  obtain ⟨hq0, hq1⟩ := DGe1_seedSeq _ seq_cells hs0 hs1
  have h3 : DGe1 st3.CC0 ∧ DGe1 st3.CC1 :=
    optFold_inv (fun s => DGe1 s.CC0 ∧ DGe1 s.CC1) forwardStep gates
      (fun s g s' _ hP hs => forwardStep_ge1 hP.1 hP.2 hs)
      _ _ ⟨hq0, hq1⟩ hfw
  obtain ⟨ho0, ho1, -⟩ := seedOutputs_CC st3 outputs
  have h5 : DGe1 st5.CC0 ∧ DGe1 st5.CC1 :=
    optFold_inv (fun s => DGe1 s.CC0 ∧ DGe1 s.CC1) backwardStep gates.reverse
      (fun s g s' _ hP hs => by
        obtain ⟨e0, e1, -⟩ := backwardStep_CCframes hs
        exact ⟨e0 ▸ hP.1, e1 ▸ hP.2⟩)
      _ _ ⟨ho0 ▸ h3.1, ho1 ▸ h3.2⟩ hbk
  exact h5

/-- Witness for C8_controllability_ge1 at Scenario 1. -/
theorem C8_controllability_ge1_witness :
    DGe1 ([("a", 1), ("b", 1), ("y", 2)] : Dict ℤ) ∧
    DGe1 ([("a", 1), ("b", 1), ("y", 3)] : Dict ℤ) :=
  C8_controllability_ge1 ["a", "b"] ["y"] [⟨"AND", "y", ["a", "b"], "g1"⟩] []
    ⟨[("a", 1), ("b", 1), ("y", 2)], [("a", 1), ("b", 1), ("y", 3)],
      [("y", 0), ("a", 2), ("b", 2)],
      [("a", XReal.fin 3), ("b", XReal.fin 3), ("y", XReal.fin 2)],
      [("a", XReal.fin 3), ("b", XReal.fin 3), ("y", XReal.fin 3)],
      [("a", XReal.fin 2), ("b", XReal.fin 2), ("y", XReal.fin 0)],
      [("a", 0), ("b", 0), ("y", 1)], [("y", 0), ("a", 1), ("b", 1)]⟩
    (by decide)
